import Mathlib

/-!
Verification of the CasNum repository (straightedge-and-compass integer
arithmetic over exact coordinates).

The development shallowly embeds the source:

* `Cas.SymVal` models the small fragment of sympy value semantics (rational
  values, `zoo` = complex infinity, `nan`) that the `Line` slope/intercept
  computation exercises; it is used to settle the claim about
  `Line.__eq__` (src/casnum/cas/line.py).
* `Cas.Point`, `Cas.Line`, `Cas.Circle` embed the geometric kernel
  (point.py, line.py, circle.py) over the real numbers: sympy's exact
  algebraic numbers are modelled by `ℝ`, sympy `sqrt` of a non-negative
  real by `Real.sqrt` (on the negative reals `Real.sqrt` returns junk `0`
  where sympy produces a non-real expression; the only claim touching that
  territory is settled by list length, not by coordinates).
* Fallible steps (tuple unpacking of an intersection list of the wrong
  length, `Line(p, p)`-style aborts, the conventional point at infinity
  returned by parallel `Line.get_intersection`) are modelled with
  `Option`: `none` is an exception escaping to the caller.
* The `while` loops of the arithmetic layer (casnum.py) are modelled with
  an explicit fuel parameter; the fuel chosen in the wrapper definitions
  is proved sufficient for the integer inputs the claims quantify over.
-/

set_option maxHeartbeats 1600000

namespace Cas

/-- Model of the sympy values that appear when `Line.__init__` computes
`slope` and `intercept`: an exact rational, `zoo` (complex infinity,
produced by division of a nonzero value by zero) and `nan` (produced by
`0/0`, `zoo*0` and `finite - nan`).  Structural equality of sympy
expressions restricted to these values is plain equality. -/
inductive SymVal where
  | rat (q : ℚ)
  | zoo
  | nan
deriving DecidableEq

/-- Sympy negation on the modelled values: `-zoo = zoo`, `-nan = nan`. -/
def SymVal.neg : SymVal → SymVal
  | rat q => rat (-q)
  | zoo => zoo
  | nan => nan

/-- Sympy addition on the modelled values: a finite value absorbs into
`zoo`, `zoo + zoo = nan`, and `nan` is absorbing. -/
def SymVal.add : SymVal → SymVal → SymVal
  | rat a, rat b => rat (a + b)
  | rat _, zoo => zoo
  | zoo, rat _ => zoo
  | zoo, zoo => nan
  | nan, _ => nan
  | _, nan => nan

/-- Sympy multiplication on the modelled values: `0 * zoo = nan`,
a nonzero rational times `zoo` is `zoo`, and `nan` is absorbing. -/
def SymVal.mul : SymVal → SymVal → SymVal
  | rat a, rat b => rat (a * b)
  | rat a, zoo => if a = 0 then nan else zoo
  | zoo, rat a => if a = 0 then nan else zoo
  | zoo, zoo => zoo
  | nan, _ => nan
  | _, nan => nan

/-- Sympy inversion on the modelled values: `1/0 = zoo`, `1/zoo = 0`. -/
def SymVal.inv : SymVal → SymVal
  | rat q => if q = 0 then zoo else rat q⁻¹
  | zoo => rat 0
  | nan => nan

/-- Sympy subtraction, reduced to addition and negation as sympy does. -/
def SymVal.sub (a b : SymVal) : SymVal := a.add b.neg

/-- Sympy division, reduced to multiplication and inversion as sympy
does; in particular `0/0 = 0 * zoo = nan`. -/
def SymVal.div (a b : SymVal) : SymVal := a.mul b.inv

/-- Rational point of the plane, for the `Line.__eq__` claim. -/
@[ext]
structure QPoint where
  x : ℚ
  y : ℚ
deriving DecidableEq

/-- Slope field computed by `Line.__init__` via `Line.get_slope`:
`(p2.y - p1.y) / (p2.x - p1.x)` in sympy arithmetic. -/
def qslope (p1 p2 : QPoint) : SymVal :=
  SymVal.div (.rat (p2.y - p1.y)) (.rat (p2.x - p1.x))

/-- Intercept field computed by `Line.__init__` via `Line.get_intercept`:
`p1.y - slope * p1.x` in sympy arithmetic. -/
def qintercept (p1 p2 : QPoint) : SymVal :=
  SymVal.sub (.rat p1.y) ((qslope p1 p2).mul (.rat p1.x))

/-- A `Line` as far as `Line.__eq__` is concerned: the two defining
points; the derived `slope`/`intercept` fields are recomputed. -/
@[ext]
structure QLine where
  p1 : QPoint
  p2 : QPoint
deriving DecidableEq

/-- Derived `slope` attribute of a line. -/
def QLine.slope (l : QLine) : SymVal := qslope l.p1 l.p2

/-- Derived `intercept` attribute of a line. -/
def QLine.intercept (l : QLine) : SymVal := qintercept l.p1 l.p2

/-- The source's `Line.__eq__`: equality of the `slope` and `intercept`
fields (structural sympy equality). -/
def QLine.eq (l1 l2 : QLine) : Prop :=
  l1.slope = l2.slope ∧ l1.intercept = l2.intercept

instance (l1 l2 : QLine) : Decidable (QLine.eq l1 l2) := by
  unfold QLine.eq; infer_instance

/-- Three points are collinear (the third lies on the geometric line
through the first two). -/
def qcollinear (p q r : QPoint) : Prop :=
  (q.x - p.x) * (r.y - p.y) - (q.y - p.y) * (r.x - p.x) = 0

open scoped Classical

/-- Exact point of the plane (point.py): sympy exact coordinates are
modelled by real numbers; construction-time simplification
(sqrtdenest/radsimp) does not change the denoted value, so it is the
identity in the model. -/
@[ext]
structure Point where
  x : ℝ
  y : ℝ

/-- Point.dist: Euclidean distance (point.py). -/
noncomputable def Point.dist (p1 p2 : Point) : ℝ :=
  Real.sqrt ((p1.x - p2.x)^2 + (p1.y - p2.y)^2)

/-- Line through two points (line.py); the A, B, C, slope and intercept
attributes computed by Line.__init__ are recovered by the projections
below.  The source raises DegenerateLine for coincident points; the model
keeps the constructor total, and every lemma about constructed lines
carries the distinctness of the defining points as a hypothesis. -/
structure Line where
  p1 : Point
  p2 : Point

/-- Attribute A of Ax + By + C = 0 (line.py line 14). -/
def Line.A (l : Line) : ℝ := l.p1.y - l.p2.y

/-- Attribute B (line.py line 15). -/
def Line.B (l : Line) : ℝ := l.p2.x - l.p1.x

/-- Attribute C (line.py line 18). -/
def Line.C (l : Line) : ℝ := l.p1.x * l.p2.y - l.p2.x * l.p1.y

/-- Attribute slope = (p2.y - p1.y)/(p2.x - p1.x) (line.py, get_slope).
For a vertical line sympy produces zoo; the model returns the real
division-by-zero junk value 0, and every consumer of slope in the kernel
is guarded by the A = 0 / B = 0 branch tests exactly as in the source. -/
noncomputable def Line.slope (l : Line) : ℝ := (l.p2.y - l.p1.y) / (l.p2.x - l.p1.x)

/-- Attribute intercept = p1.y - slope * p1.x (line.py, get_intercept). -/
noncomputable def Line.intercept (l : Line) : ℝ := l.p1.y - l.slope * l.p1.x

/-- Line.at: the point of the line at abscissa x, in slope form
(line.py line 24; named atX because at is reserved in Lean). -/
noncomputable def Line.atX (l : Line) (x : ℝ) : Point :=
  ⟨x, l.slope * x + l.intercept⟩

/-- Line.dist_from_point (line.py line 71). -/
noncomputable def Line.dist_from_point (l : Line) (p : Point) : ℝ :=
  |l.A * p.x + l.B * p.y + l.C| / Real.sqrt (l.A^2 + l.B^2)

/-- Line.get_intersection by Cramer's rule (line.py lines 51-66).  When
the determinant vanishes the source returns the conventional point at
infinity Point(zoo, zoo), modelled by none; the rational fast path that
skips simplification does not change the value. -/
noncomputable def Line.get_intersection (l1 l2 : Line) : Option Point :=
  let d := l1.A * l2.B - l1.B * l2.A
  if d = 0 then none
  else
    some ⟨d⁻¹ * (l2.B * (-l1.C) + l1.B * l2.C), d⁻¹ * (l2.A * l1.C - l1.A * l2.C)⟩

/-- Line.intersect (line.py line 68). -/
noncomputable def Line.intersect (l1 l2 : Line) : Option Point :=
  Line.get_intersection l1 l2

/-- Circle given by center and a boundary point (circle.py); radius is
derived.  The source raises DegenerateCircle for coincident points; the
model keeps the constructor total, with non-degeneracy carried as a
hypothesis by every lemma. -/
structure Circle where
  center : Point
  other_point : Point

/-- Circle.radius = dist(center, other_point) (circle.py line 15). -/
noncomputable def Circle.radius (c : Circle) : ℝ :=
  Point.dist c.center c.other_point

/-- Circle.get_circle: circle from center and radius (circle.py line 20). -/
def Circle.get_circle (center : Point) (radius : ℝ) : Circle :=
  ⟨center, ⟨center.x - radius, center.y⟩⟩

/-- Circle.intersect_with_line (circle.py lines 70-100), with the
explicit horizontal (A = 0), vertical (B = 0) and slope-form branches,
the tangent branch, and the empty result for a distant line. -/
noncomputable def Circle.intersect_with_line (c : Circle) (l : Line) : List Point :=
  let d := l.dist_from_point c.center
  if d < c.radius then
    if l.A = 0 then
      let y := -l.C / l.B
      let xs := Real.sqrt (c.radius^2 - (y - c.center.y)^2)
      [⟨c.center.x + xs, y⟩, ⟨c.center.x - xs, y⟩]
    else if l.B = 0 then
      let x := -l.C / l.A
      let ys := Real.sqrt (c.radius^2 - (x - c.center.x)^2)
      [⟨x, c.center.y + ys⟩, ⟨x, c.center.y - ys⟩]
    else
      let x1 := (-Real.sqrt (-c.center.x^2 * l.slope^2 + 2 * c.center.y * (c.center.x * l.slope + l.intercept) - 2 * c.center.x * l.intercept * l.slope - c.center.y^2 - l.intercept^2 + (l.slope * c.radius)^2 + c.radius^2) + c.center.x + c.center.y * l.slope - l.intercept * l.slope) / (l.slope^2 + 1)
      let x2 := (Real.sqrt (-c.center.x^2 * l.slope^2 + 2 * c.center.y * (c.center.x * l.slope + l.intercept) - 2 * c.center.x * l.intercept * l.slope - c.center.y^2 - l.intercept^2 + (l.slope * c.radius)^2 + c.radius^2) + c.center.x + c.center.y * l.slope - l.intercept * l.slope) / (l.slope^2 + 1)
      [l.atX x1, l.atX x2]
  else if d = c.radius then
    if l.A = 0 then
      [⟨c.center.x, -l.C / l.B⟩]
    else if l.B = 0 then
      [⟨-l.C / l.A, c.center.y⟩]
    else
      [l.atX ((-Real.sqrt (-c.center.x^2 * l.slope^2 + 2 * c.center.y * (c.center.x * l.slope + l.intercept) - 2 * c.center.x * l.intercept * l.slope - c.center.y^2 - l.intercept^2 + (l.slope * c.radius)^2 + c.radius^2) + c.center.x + c.center.y * l.slope - l.intercept * l.slope) / (l.slope^2 + 1))]
  else []

/-- The polynomial under the square root in the closed-form y solution of
Circle.get_intersection (circle.py lines 30-31), transcribed verbatim. -/
noncomputable def ccInner (c1 c2 : Circle) : ℝ :=
  ((-4 * c1.center.x * c1.center.x * c1.center.y + 4 * c1.center.x * c1.center.x * c2.center.y + 8 * c1.center.x * c1.center.y * c2.center.x - 8 * c1.center.x * c2.center.x * c2.center.y - 4 * c1.center.y * c1.center.y * c1.center.y + 12 * c1.center.y * c1.center.y * c2.center.y - 4 * c1.center.y * c2.center.x * c2.center.x - 12 * c1.center.y * c2.center.y * c2.center.y - 4 * c1.center.y * c1.radius * c1.radius + 4 * c1.center.y * c2.radius * c2.radius + 4 * c2.center.x * c2.center.x * c2.center.y + 4 * c2.center.y * c2.center.y * c2.center.y + 4 * c2.center.y * c1.radius * c1.radius - 4 * c2.center.y * c2.radius * c2.radius))^2 - 4 * (4 * c1.center.x * c1.center.x - 8 * c1.center.x * c2.center.x + 4 * c1.center.y * c1.center.y - 8 * c1.center.y * c2.center.y + 4 * c2.center.x * c2.center.x + 4 * c2.center.y * c2.center.y) * (c1.center.x * c1.center.x * c1.center.x * c1.center.x - 4 * c1.center.x * c1.center.x * c1.center.x * c2.center.x + 2 * c1.center.x * c1.center.x * c1.center.y * c1.center.y - 4 * c1.center.x * c1.center.x * c1.center.y * c2.center.y + 6 * c1.center.x * c1.center.x * c2.center.x * c2.center.x + 2 * c1.center.x * c1.center.x * c2.center.y * c2.center.y - 2 * c1.center.x * c1.center.x * c1.radius * c1.radius - 2 * c1.center.x * c1.center.x * c2.radius * c2.radius - 4 * c1.center.x * c1.center.y * c1.center.y * c2.center.x + 8 * c1.center.x * c1.center.y * c2.center.x * c2.center.y - 4 * c1.center.x * c2.center.x * c2.center.x * c2.center.x - 4 * c1.center.x * c2.center.x * c2.center.y * c2.center.y + 4 * c1.center.x * c2.center.x * c1.radius * c1.radius + 4 * c1.center.x * c2.center.x * c2.radius * c2.radius + c1.center.y * c1.center.y * c1.center.y * c1.center.y - 4 * c1.center.y * c1.center.y * c1.center.y * c2.center.y + 2 * c1.center.y * c1.center.y * c2.center.x * c2.center.x + 6 * c1.center.y * c1.center.y * c2.center.y * c2.center.y + 2 * c1.center.y * c1.center.y * c1.radius * c1.radius - 2 * c1.center.y * c1.center.y * c2.radius * c2.radius - 4 * c1.center.y * c2.center.x * c2.center.x * c2.center.y - 4 * c1.center.y * c2.center.y * c2.center.y * c2.center.y - 4 * c1.center.y * c2.center.y * c1.radius * c1.radius + 4 * c1.center.y * c2.center.y * c2.radius * c2.radius + c2.center.x * c2.center.x * c2.center.x * c2.center.x + 2 * c2.center.x * c2.center.x * c2.center.y * c2.center.y - 2 * c2.center.x * c2.center.x * c1.radius * c1.radius - 2 * c2.center.x * c2.center.x * c2.radius * c2.radius + c2.center.y * c2.center.y * c2.center.y * c2.center.y + 2 * c2.center.y * c2.center.y * c1.radius * c1.radius - 2 * c2.center.y * c2.center.y * c2.radius * c2.radius + c1.radius * c1.radius * c1.radius * c1.radius - 2 * c1.radius * c1.radius * c2.radius * c2.radius + c2.radius * c2.radius * c2.radius * c2.radius)

/-- The common denominator of the closed-form y solution of
Circle.get_intersection (circle.py lines 30-31), transcribed verbatim. -/
noncomputable def ccDen (c1 c2 : Circle) : ℝ :=
  2 * (4 * c1.center.x * c1.center.x - 8 * c1.center.x * c2.center.x + 4 * c1.center.y * c1.center.y - 8 * c1.center.y * c2.center.y + 4 * c2.center.x * c2.center.x + 4 * c2.center.y * c2.center.y)

/-- The first y root of Circle.get_intersection (circle.py line 30),
transcribed verbatim (the minus-sqrt branch). -/
noncomputable def ccY1 (c1 c2 : Circle) : ℝ :=
  c1.center.y - (4 * c1.center.x * c1.center.x * c1.center.y - 4 * c1.center.x * c1.center.x * c2.center.y - Real.sqrt (ccInner c1 c2) - 8 * c1.center.x * c1.center.y * c2.center.x + 8 * c1.center.x * c2.center.x * c2.center.y + 4 * c1.center.y * c1.center.y * c1.center.y - 12 * c1.center.y * c1.center.y * c2.center.y + 4 * c1.center.y * c2.center.x * c2.center.x + 12 * c1.center.y * c2.center.y * c2.center.y + 4 * c1.center.y * c1.radius * c1.radius - 4 * c1.center.y * c2.radius * c2.radius - 4 * c2.center.x * c2.center.x * c2.center.y - 4 * c2.center.y * c2.center.y * c2.center.y - 4 * c2.center.y * c1.radius * c1.radius + 4 * c2.center.y * c2.radius * c2.radius) / (ccDen c1 c2)

/-- The second y root of Circle.get_intersection (circle.py line 31),
transcribed verbatim (the plus-sqrt branch). -/
noncomputable def ccY2 (c1 c2 : Circle) : ℝ :=
  c1.center.y - (4 * c1.center.x * c1.center.x * c1.center.y - 4 * c1.center.x * c1.center.x * c2.center.y + Real.sqrt (ccInner c1 c2) - 8 * c1.center.x * c1.center.y * c2.center.x + 8 * c1.center.x * c2.center.x * c2.center.y + 4 * c1.center.y * c1.center.y * c1.center.y - 12 * c1.center.y * c1.center.y * c2.center.y + 4 * c1.center.y * c2.center.x * c2.center.x + 12 * c1.center.y * c2.center.y * c2.center.y + 4 * c1.center.y * c1.radius * c1.radius - 4 * c1.center.y * c2.radius * c2.radius - 4 * c2.center.x * c2.center.x * c2.center.y - 4 * c2.center.y * c2.center.y * c2.center.y - 4 * c2.center.y * c1.radius * c1.radius + 4 * c2.center.y * c2.radius * c2.radius) / (ccDen c1 c2)

/-- Model of the nested candidate-matching loops of
Circle.get_intersection (circle.py lines 40-44 and 50-54): the inner
break leaves the outer loop running, so the last matching outer
candidate (cur_x1 = cx1 - t1 is iterated after cx1 + t1) wins; when no
pair matches the Python code raises NameError on the unbound x variable,
modelled by none.  are_expressions_approx_equal is a high-precision
numeric tie-break among exact candidates and is modelled by real
equality. -/
noncomputable def pickX (xs1 xs2 : ℝ × ℝ) : Option ℝ :=
  if xs1.2 = xs2.1 ∨ xs1.2 = xs2.2 then some xs1.2
  else if xs1.1 = xs2.1 ∨ xs1.1 = xs2.2 then some xs1.1
  else none

/-- Circle.get_intersection (circle.py lines 23-65).  The y1/y2 closed
forms are transcribed verbatim from the source; the outer Option records
the possible NameError escape of the matching loops.  When the two
circles are separated or contained the first branch test fails and
either the tangent branch or the empty list is produced; the containment
case D < |r1 - r2| wrongly enters the two-point branch exactly as in the
source (the source carries a TODO for it). -/
noncomputable def Circle.get_intersection (c1 c2 : Circle) : Option (List Point) :=
  if Point.dist c1.center c2.center < c1.radius + c2.radius then
    let y1 := ccY1 c1 c2
    let y2 := ccY2 c1 c2
    let t1 := Real.sqrt (c1.radius^2 - (y1 - c1.center.y)^2)
    if y1 = y2 then
      some [⟨c1.center.x + t1, y1⟩, ⟨c1.center.x - t1, y2⟩]
    else
      let t2 := Real.sqrt (c2.radius^2 - (y1 - c2.center.y)^2)
      match pickX (c1.center.x + t1, c1.center.x - t1) (c2.center.x + t2, c2.center.x - t2) with
      | none => none
      | some xv1 =>
        let t1b := Real.sqrt (c1.radius^2 - (y2 - c1.center.y)^2)
        let t2b := Real.sqrt (c2.radius^2 - (y2 - c2.center.y)^2)
        match pickX (c1.center.x + t1b, c1.center.x - t1b) (c2.center.x + t2b, c2.center.x - t2b) with
        | none => none
        | some xv2 => some [⟨xv1, y1⟩, ⟨xv2, y2⟩]
  else if Point.dist c1.center c2.center = c1.radius + c2.radius then
    let center_line : Line := ⟨c1.center, c2.center⟩
    let delta_x := Real.sqrt (c1.radius^2 / (1 + center_line.slope^2))
    if c1.center.x < c2.center.x then
      some [center_line.atX (c1.center.x + delta_x)]
    else
      some [center_line.atX (c1.center.x - delta_x)]
  else some []

/-- Circle.intersect (circle.py line 67). -/
noncomputable def Circle.intersect (c1 c2 : Circle) : Option (List Point) :=
  Circle.get_intersection c1 c2

/-- Python tuple unpacking p1, p2 = lst: succeeds exactly on a
two-element list, otherwise the ValueError/TypeError escapes (none). -/
def unpack2 (lst : List Point) : Option (Point × Point) :=
  match lst with
  | [a, b] => some (a, b)
  | _ => none

/-- get_perpendicular_bisector (cas_utils.py lines 5-8):
Line(*Circle(l.p1, l.p2).intersect(Circle(l.p2, l.p1))). -/
noncomputable def get_perpendicular_bisector (l : Line) : Option Line := do
  let c1 : Circle := ⟨l.p1, l.p2⟩
  let c2 : Circle := ⟨l.p2, l.p1⟩
  let pts ← Circle.intersect c1 c2
  let (q1, q2) ← unpack2 pts
  pure ⟨q1, q2⟩

/-- get_midpoint (cas_utils.py lines 10-12).  The source returns
l.intersect(l_perp) directly; the point-at-infinity outcome of a
parallel pair is folded into none together with construction failures. -/
noncomputable def get_midpoint (l : Line) : Option Point := do
  let l_perp ← get_perpendicular_bisector l
  Line.intersect l l_perp

/-- Loop body state of generate_n: the pair (p_prev, p_cur). -/
noncomputable def generate_n_loop (l : Line) : ℕ → Point × Point → Option (Point × Point)
  | 0, st => some st
  | n + 1, (p_prev, p_cur) => do
    let c : Circle := ⟨p_cur, p_prev⟩
    let (q1, q2) ← unpack2 (c.intersect_with_line l)
    if p_prev = q1 then
      generate_n_loop l n (p_cur, q2)
    else
      generate_n_loop l n (p_cur, q1)

/-- generate_n (cas_utils.py lines 14-27): starting from (origin, unit),
n circle/x-axis intersections along the axis; returns p_prev. -/
noncomputable def generate_n (n : ℕ) (origin unit : Point) : Option Point := do
  let l : Line := ⟨origin, unit⟩
  let st ← generate_n_loop l n (origin, unit)
  pure st.1

/-- get_perpendicular_to_line_through_point (cas_utils.py lines 29-54),
with both branches: point off the line (chord circle, then the radical
construction on two equal circles) and point on the line (two bisector
candidates disambiguated by the nearest-pair distance test). -/
noncomputable def get_perpendicular_to_line_through_point (p : Point) (l : Line) :
    Option Line := do
  if l.dist_from_point p > 0 then
    let c : Circle := ⟨p, l.p1⟩
    let inter := c.intersect_with_line l
    let inter := if inter.length < 2 then
        (Circle.mk p l.p2).intersect_with_line l
      else inter
    let (q1, q2) ← unpack2 inter
    let c1 : Circle := ⟨q1, p⟩
    let c2 : Circle := ⟨q2, p⟩
    let pts ← Circle.intersect c1 c2
    let (a1, a2) ← unpack2 pts
    pure ⟨a1, a2⟩
  else
    let c : Circle := if p = l.p1 then ⟨p, l.p2⟩ else ⟨p, l.p1⟩
    let (q1, q2) ← unpack2 (c.intersect_with_line l)
    let l1 ← get_perpendicular_bisector ⟨p, q1⟩
    let l2 ← get_perpendicular_bisector ⟨p, q2⟩
    let (p11, p12) ← unpack2 (c.intersect_with_line l1)
    let (p21, p22) ← unpack2 (c.intersect_with_line l2)
    if Point.dist p11 p21 < Point.dist p11 p22 then
      get_perpendicular_bisector ⟨p11, p21⟩
    else
      get_perpendicular_bisector ⟨p12, p22⟩

/-- get_parallel_to_line_through_point (cas_utils.py lines 57-61). -/
noncomputable def get_parallel_to_line_through_point (p : Point) (l : Line) :
    Option Line := do
  let l_perp ← get_perpendicular_to_line_through_point p l
  let p_tag ← Line.intersect l l_perp
  let c : Circle := ⟨p, p_tag⟩
  let (q1, q2) ← unpack2 (c.intersect_with_line l_perp)
  get_perpendicular_bisector ⟨q1, q2⟩

/-- get_y_axis (cas_utils.py lines 63-64). -/
noncomputable def get_y_axis (origin unit : Point) : Option Line :=
  get_perpendicular_to_line_through_point origin ⟨origin, unit⟩

/-- mirror_point (cas_utils.py lines 66-73). -/
noncomputable def mirror_point (p : Point) (l : Line) : Option Point := do
  let l_perp ← get_perpendicular_to_line_through_point p l
  let a ← Line.intersect l l_perp
  let (q1, q2) ← unpack2 ((Circle.mk a p).intersect_with_line l_perp)
  if q1 = p then pure q2 else pure q1

/-- mirror_point_on_x_axis (cas_utils.py lines 75-80). -/
noncomputable def mirror_point_on_x_axis (p : Point) (origin : Point) : Option Point := do
  if p = origin then
    pure origin
  else
    let c : Circle := ⟨origin, p⟩
    let (q1, q2) ← unpack2 (c.intersect_with_line ⟨origin, p⟩)
    if q2 = p then pure q1 else pure q2

/-- double_point_on_x_axis (cas_utils.py lines 83-88). -/
noncomputable def double_point_on_x_axis (origin : Point) (p : Point) : Option Point := do
  if p = origin then
    pure origin
  else
    let c : Circle := ⟨p, origin⟩
    let (q1, q2) ← unpack2 (c.intersect_with_line ⟨origin, p⟩)
    if q2 = origin then pure q1 else pure q2

/-- half_point_on_x_axis (cas_utils.py lines 90-93). -/
noncomputable def half_point_on_x_axis (origin : Point) (p : Point) : Option Point :=
  if p = origin then
    pure origin
  else
    get_midpoint ⟨origin, p⟩

/-- Module-level origin = Point(0, 0) (casnum.py line 19).  The CasNum
zero is CasNum(origin); since CasNum equality and hashing delegate to
the wrapped point, a CasNum is identified with its point throughout. -/
def originP : Point := ⟨0, 0⟩

/-- Module-level unit = Point(1, 0) (casnum.py line 20); the CasNum one. -/
def unitP : Point := ⟨1, 0⟩

/-- Module-level x_axis = Line(origin, unit) (casnum.py line 21). -/
def x_axis : Line := ⟨originP, unitP⟩

/-- Module-level y_axis = get_y_axis(origin, unit) (casnum.py line 22).
The module initialisation would abort if the construction failed, so the
model discharges the Option with a degenerate junk default; the lemma
get_y_axis_eval computes the constructed value. -/
noncomputable def y_axis : Line :=
  (get_y_axis originP unitP).getD ⟨originP, originP⟩

/-- CasNum.mul2 (casnum.py lines 271-274). -/
noncomputable def casnumMul2 (a : Point) : Option Point :=
  double_point_on_x_axis originP a

/-- CasNum.__neg__ (casnum.py lines 106-108). -/
noncomputable def casnumNeg (a : Point) : Option Point :=
  mirror_point_on_x_axis a originP

/-- CasNum.__add__ (casnum.py lines 76-97), in the
ALLOW_CONSTRUCT_CIRCLE_FROM_CENTER_AND_RADIUS = True configuration the
module fixes (line 23); the alternative midpoint/doubling branch is dead
code.  CasNum comparison against zero reads the x coordinate. -/
noncomputable def casnumAdd (a b : Point) : Option Point := do
  if a = originP then some b
  else if b = originP then some a
  else if a = b then casnumMul2 a
  else do
    let c := Circle.get_circle a (Point.dist originP b)
    let (p1, p2) ← unpack2 (c.intersect_with_line x_axis)
    if 0 < b.x then
      some (if p2.x < p1.x then p1 else p2)
    else
      some (if p1.x < p2.x then p1 else p2)

/-- CasNum.__sub__ (casnum.py lines 99-104). -/
noncomputable def casnumSub (a b : Point) : Option Point :=
  if a = b then some originP
  else do
    let nb ← casnumNeg b
    casnumAdd a nb

/-- CasNum.abs (casnum.py lines 110-115). -/
noncomputable def casnumAbs (a : Point) : Option Point :=
  if a.x < 0 then casnumNeg a else some a

/-- Module-level two = one + one (casnum.py line 577); as for y_axis the
Option is discharged with a junk default and the value is computed by a
lemma. -/
noncomputable def twoPoint : Point := (casnumAdd unitP unitP).getD originP

/-- CasNum.__ge__ (casnum.py lines 38-39): self > other or isEqual. -/
def casnumGe (a b : Point) : Prop := b.x < a.x ∨ a = b

/-- Loop of CasNum.double_until_gt (casnum.py lines 139-145) with the
default strict=True used by every caller in scope: double to_rem while
a > to_rem.  The fuel argument models the while loop; exhausted fuel is
none, and the wrapper supplies fuel proved sufficient on the integer
inputs the claims range over. -/
noncomputable def casnumDoubleUntilGtLoop : ℕ → Point → Point → Option Point
  | 0, _, _ => none
  | f + 1, a, to_rem =>
    if to_rem.x < a.x then do
      let t ← casnumMul2 to_rem
      casnumDoubleUntilGtLoop f a t
    else some to_rem

/-- CasNum.double_until_gt (casnum.py lines 139-145). -/
noncomputable def casnumDoubleUntilGt (a b : Point) : Option Point :=
  casnumDoubleUntilGtLoop (⌈a.x - b.x⌉₊ + 1) a b

/-- Loop and final sign adjustment of CasNum.__mod__ (casnum.py lines
117-137): while |remainder| >= |b|, subtract (or add, for a negative
remainder) the largest double of |b| below twice the remainder; then
shift the remainder into the window whose sign matches the divisor. -/
noncomputable def casnumModLoop : ℕ → Point → Point → Point → Option Point
  | 0, _, _, _ => none
  | f + 1, rem, other, abs_b => do
    let aRem ← casnumAbs rem
    if casnumGe aRem abs_b then do
      let to_rem ← casnumDoubleUntilGt aRem abs_b
      let rem' ← if 0 < rem.x then casnumSub rem to_rem else casnumAdd rem to_rem
      casnumModLoop f rem' other abs_b
    else
      if other.x < 0 ∧ 0 < rem.x then casnumSub rem abs_b
      else if 0 < other.x ∧ rem.x < 0 then casnumAdd rem abs_b
      else some rem

/-- CasNum.__mod__ (casnum.py lines 117-137); zero divisor raises. -/
noncomputable def casnumMod (a b : Point) : Option Point := do
  if b = originP then none
  else do
    let abs_b ← casnumAbs b
    casnumModLoop (⌈|a.x|⌉₊ + 1) a b abs_b

/-- Loop of CasNum.__rshift__ (casnum.py lines 276-289): i times, halve
an even value, otherwise subtract one and halve. -/
noncomputable def casnumRshiftLoop (two' : Point) : ℕ → Point → Option Point
  | 0, cpy => some cpy
  | i + 1, cpy => do
    let m ← casnumMod cpy two'
    let cpy' ← if m = originP then half_point_on_x_axis originP cpy
      else do
        let t ← casnumSub cpy unitP
        half_point_on_x_axis originP t
    casnumRshiftLoop two' i cpy'

/-- Loop of CasNum.get_n (casnum.py lines 302-317) over the binary
digits of n, least significant first (bin_str reversed): accumulate the
doubling chain of the unit into ret on the one bits.  Nat.bits lists the
digits exactly as the reversed bin string does (for n = 0 the python
loop runs once on the digit 0 without changing ret, and Nat.bits is
empty; the value is unchanged either way). -/
noncomputable def casnumGetNLoop : List Bool → Point → Point → Option Point
  | [], ret, _ => some ret
  | b :: bs, ret, cur => do
    let ret' ← if b then casnumAdd ret cur else some ret
    let cur' ← casnumMul2 cur
    casnumGetNLoop bs ret' cur'

/-- CasNum.get_n (casnum.py lines 302-317). -/
noncomputable def casnumGetN (n : ℤ) : Option Point := do
  let ret ← casnumGetNLoop n.natAbs.bits originP unitP
  if n < 0 then casnumNeg ret else some ret

/-- CasNum.__rshift__ (casnum.py lines 276-289); the shift count is a
plain python int. -/
noncomputable def casnumRshift (a : Point) (i : ℕ) : Option Point := do
  let two' ← casnumGetN 2
  casnumRshiftLoop two' i a

/-- CasNum.__lshift__ (casnum.py lines 291-299). -/
noncomputable def casnumLshiftLoop : ℕ → Point → Option Point
  | 0, a => some a
  | i + 1, a => do
    let t ← casnumMul2 a
    casnumLshiftLoop i t

/-- CasNum.__lshift__ (casnum.py lines 291-299); i is a python int. -/
noncomputable def casnumLshift (a : Point) (i : ℕ) : Option Point :=
  casnumLshiftLoop i a

/-- CasNum.from_num (casnum.py lines 62-69): generate_n for positive n,
and the origin point otherwise. -/
noncomputable def casnumFromNum (n : ℤ) : Option Point :=
  if 0 < n then generate_n n.toNat originP unitP else some ⟨0, 0⟩

/-- CasNum.__truediv__ (casnum.py lines 194-232): raise on a zero
divisor, strip signs, shortcut a zero numerator, then the geometric
division (lift |a| to the y axis, draw the parallel through -unit to the
line joining the lifted point and |b|, intersect with the y axis and
project back to the x axis), and reapply the signs. -/
noncomputable def casnumTruediv (a b : Point) : Option Point := do
  if b = originP then none
  else do
    let a_cpy ← if a.x < 0 then casnumNeg a else some a
    let b_cpy ← if b.x < 0 then casnumNeg b else some b
    if a_cpy = originP then some originP
    else if b_cpy = originP then some originP
    else do
      let neg_unit ← mirror_point_on_x_axis unitP originP
      let c : Circle := ⟨originP, a_cpy⟩
      let (p1, p2) ← unpack2 (c.intersect_with_line y_axis)
      let p := if p2.y < p1.y then p1 else p2
      let l ← get_parallel_to_line_through_point neg_unit ⟨p, b_cpy⟩
      let p_div ← Line.intersect y_axis l
      let (q1, q2) ← unpack2 ((Circle.mk originP p_div).intersect_with_line x_axis)
      let ret := if 0 < q1.x then q1 else q2
      let ret ← if a.x < 0 then casnumNeg ret else some ret
      let ret ← if b.x < 0 then casnumNeg ret else some ret
      some ret

/-- CasNum.__mul__ (casnum.py lines 234-269): shortcuts for a unit
factor, sign stripping, zero shortcuts, then the geometric product (lift
|a| to the y axis, parallel through |b| to the line joining the lifted
point and -unit, intersect with the y axis, project back), and the
signs. -/
noncomputable def casnumMul (a b : Point) : Option Point := do
  if b = unitP then some a
  else if a = unitP then some b
  else do
    let a_cpy ← if a.x < 0 then casnumNeg a else some a
    let b_cpy ← if b.x < 0 then casnumNeg b else some b
    if a_cpy = originP then some originP
    else if b_cpy = originP then some originP
    else do
      let neg_unit ← mirror_point unitP y_axis
      let c : Circle := ⟨originP, a_cpy⟩
      let (p1, p2) ← unpack2 (c.intersect_with_line y_axis)
      let p := if p2.y < p1.y then p1 else p2
      let l ← get_parallel_to_line_through_point b_cpy ⟨p, neg_unit⟩
      let p_mul ← Line.intersect y_axis l
      let (q1, q2) ← unpack2 ((Circle.mk originP p_mul).intersect_with_line x_axis)
      let ret := if 0 < q1.x then q1 else q2
      let ret ← if a.x < 0 then casnumNeg ret else some ret
      let ret ← if b.x < 0 then casnumNeg ret else some ret
      some ret

/-- CasNum.__floordiv__ (casnum.py lines 184-192):
(self - self % other) / other with the exact division. -/
noncomputable def casnumFloordiv (a b : Point) : Option Point := do
  let t ← casnumMod a b
  let t2 ← casnumSub a t
  casnumTruediv t2 b

/-- Loop of CasNum.pow_mod (casnum.py lines 162-182): square and
multiply, reducing result and base modulo n only when they exceed n. -/
noncomputable def casnumPowModLoop : ℕ → Point → Point → Point → Point → Point → Option Point
  | 0, _, _, _, _, _ => none
  | f + 1, result, base, b_cpy, n, two' =>
    if 0 < b_cpy.x then do
      let m ← casnumMod b_cpy two'
      let result' ← if m = unitP then do
          let r ← casnumMul result base
          if n.x < r.x then casnumMod r n else some r
        else some result
      let bb ← casnumMul base base
      let base' ← if n.x < bb.x then casnumMod bb n else some bb
      let b' ← casnumRshift b_cpy 1
      casnumPowModLoop f result' base' b' n two'
    else some result

/-- CasNum.pow_mod (casnum.py lines 162-182). -/
noncomputable def casnumPowMod (a b n : Point) : Option Point := do
  let two' ← casnumAdd unitP unitP
  casnumPowModLoop (⌈b.x⌉₊ + 1) unitP a b n two'

/-- CasNum.sqrt (casnum.py lines 510-522): the geometric-mean
construction; p = (a + 1)/2, q = p - 1, upper intersection of the
circle of radius p about the origin with the perpendicular through q,
then the right intersection of the circle about q through that point
with the x axis, minus q. -/
noncomputable def casnumSqrt (a : Point) : Option Point := do
  if a.x < 0 then none
  else do
    let s ← casnumAdd a unitP
    let p ← casnumTruediv s twoPoint
    let q ← casnumSub p unitP
    let c : Circle := ⟨originP, p⟩
    let l ← get_perpendicular_to_line_through_point q x_axis
    let (p1, p2) ← unpack2 (c.intersect_with_line l)
    let pU := if p2.y < p1.y then p1 else p2
    let c2 : Circle := ⟨q, pU⟩
    let (s1, s2) ← unpack2 (c2.intersect_with_line x_axis)
    let sR := if s2.x < s1.x then s1 else s2
    casnumSub sR q

/-- The point (n, 0) denoting the integer n: the CasNum representation
of an integer value. -/
def intPt (n : ℤ) : Point := ⟨(n : ℝ), 0⟩

/-- The point (q, 0) denoting a rational value on the x axis. -/
def ratPt (q : ℚ) : Point := ⟨(q : ℝ), 0⟩

/-- Membership of a point in the line l, through the A, B, C form
maintained by the source (Ax + By + C = 0). -/
def onL (P : Point) (l : Line) : Prop :=
  l.A * P.x + l.B * P.y + l.C = 0

/-- Squared radius of a circle, radical free. -/
def Circle.r2 (c : Circle) : ℝ :=
  (c.center.x - c.other_point.x)^2 + (c.center.y - c.other_point.y)^2

/-- Membership of a point in the circle c, in squared form. -/
def onC (P : Point) (c : Circle) : Prop :=
  (P.x - c.center.x)^2 + (P.y - c.center.y)^2 = c.r2

/-- Two lines are parallel: their direction vectors have zero cross
product. -/
def parallelLines (l1 l2 : Line) : Prop :=
  (l1.p2.x - l1.p1.x) * (l2.p2.y - l2.p1.y) -
    (l1.p2.y - l1.p1.y) * (l2.p2.x - l2.p1.x) = 0

theorem qslope_of_ne (p1 p2 : QPoint) (h : p1.x ≠ p2.x) :
    qslope p1 p2 = .rat ((p2.y - p1.y) / (p2.x - p1.x)) := by
  have hx : p2.x - p1.x ≠ 0 := sub_ne_zero.mpr (Ne.symm h)
  simp only [qslope, SymVal.div, SymVal.inv, if_neg hx, SymVal.mul, SymVal.rat.injEq]
  rw [div_eq_mul_inv]

theorem qintercept_of_ne (p1 p2 : QPoint) (h : p1.x ≠ p2.x) :
    qintercept p1 p2 =
      .rat (p1.y - (p2.y - p1.y) / (p2.x - p1.x) * p1.x) := by
  rw [qintercept, qslope_of_ne p1 p2 h]
  simp only [SymVal.mul, SymVal.sub, SymVal.neg, SymVal.add, SymVal.rat.injEq]
  ring

theorem ne_of_same_x (p1 p2 : QPoint) (hx : p1.x = p2.x) (hne : p1 ≠ p2) :
    p2.y - p1.y ≠ 0 := by
  intro h0
  exact hne (QPoint.ext hx (by linarith [sub_eq_zero.mp h0]))

theorem qslope_vertical (p1 p2 : QPoint) (hx : p1.x = p2.x) (hne : p1 ≠ p2) :
    qslope p1 p2 = .zoo := by
  have hy : p2.y - p1.y ≠ 0 := ne_of_same_x p1 p2 hx hne
  have hx0 : p2.x - p1.x = 0 := by rw [hx]; ring
  simp [qslope, hx0, SymVal.div, SymVal.inv, SymVal.mul, hy]

theorem qintercept_vertical_nonzero (p1 p2 : QPoint) (hx : p1.x = p2.x)
    (hne : p1 ≠ p2) (h0 : p1.x ≠ 0) : qintercept p1 p2 = .zoo := by
  rw [qintercept, qslope_vertical p1 p2 hx hne]
  simp only [SymVal.mul, if_neg h0, SymVal.sub, SymVal.neg, SymVal.add]

theorem qintercept_vertical_zero (p1 p2 : QPoint) (hx : p1.x = p2.x)
    (hne : p1 ≠ p2) (h0 : p1.x = 0) : qintercept p1 p2 = .nan := by
  rw [qintercept, qslope_vertical p1 p2 hx hne]
  simp only [SymVal.mul, if_pos h0, SymVal.sub, SymVal.neg, SymVal.add]

theorem qcollinear_vertical (p1 p2 q : QPoint) (hx : p1.x = p2.x)
    (hne : p1 ≠ p2) (hq : qcollinear p1 p2 q) : q.x = p1.x := by
  have hy : p2.y - p1.y ≠ 0 := ne_of_same_x p1 p2 hx hne
  unfold qcollinear at hq
  have hx0 : p2.x - p1.x = 0 := by rw [hx]; ring
  rw [hx0] at hq
  have h2 : (p2.y - p1.y) * (q.x - p1.x) = 0 := by linarith
  rcases mul_eq_zero.mp h2 with h | h
  · exact absurd h hy
  · linarith [sub_eq_zero.mp h]

theorem qcollinear_y (p1 p2 q : QPoint) (hx : p1.x ≠ p2.x)
    (hq : qcollinear p1 p2 q) :
    q.y = p1.y + (p2.y - p1.y) / (p2.x - p1.x) * (q.x - p1.x) := by
  have hx0 : p2.x - p1.x ≠ 0 := sub_ne_zero.mpr (Ne.symm hx)
  unfold qcollinear at hq
  field_simp
  linarith

/-- Claim C9: CasNum.from_num returns the origin point (the CasNum
zero) for every integer n that is not positive; a negative argument
silently yields zero. -/
theorem claim_C9_from_num_nonpos (n : ℤ) (h : n ≤ 0) :
    casnumFromNum n = some originP := by
  unfold casnumFromNum
  rw [if_neg (by omega)]
  rfl

/-- Claim C9 witness: from_num(-5) is the zero point. -/
theorem claim_C9_witness :
    (-5 : ℤ) ≤ 0 ∧ casnumFromNum (-5) = some originP :=
  ⟨by norm_num, claim_C9_from_num_nonpos (-5) (by norm_num)⟩

/-- Claim C2 counterexample: truediv with the zero divisor raises
(ValueError escapes, modelled none) rather than returning the zero
CasNum, already at the concrete input cn(5) / zero. -/
theorem claim_C2_counterexample :
    casnumTruediv (intPt 5) originP ≠ some originP := by
  unfold casnumTruediv
  rw [if_pos rfl]
  simp

/-- Claim C2 (amended): CasNum.__truediv__ checks its divisor against
zero first and raises ValueError (modelled none) for every numerator;
the zero-returning branches for the operands come after the raise and
are unreachable for a zero divisor. -/
theorem claim_C2_truediv_zero_raises (a : Point) :
    casnumTruediv a originP = none := by
  unfold casnumTruediv
  rw [if_pos rfl]

theorem Point.dist_nonneg (p q : Point) : 0 ≤ Point.dist p q :=
  Real.sqrt_nonneg _

theorem Point.dist_sq (p q : Point) :
    (Point.dist p q)^2 = (p.x - q.x)^2 + (p.y - q.y)^2 :=
  Real.sq_sqrt (by positivity)

theorem Point.dist_eq_zero_iff (p q : Point) : Point.dist p q = 0 ↔ p = q := by
  unfold Point.dist
  rw [Real.sqrt_eq_zero (by positivity)]
  constructor
  · intro h
    have hx : p.x - q.x = 0 := by nlinarith [sq_nonneg (p.x - q.x), sq_nonneg (p.y - q.y)]
    have hy : p.y - q.y = 0 := by nlinarith [sq_nonneg (p.x - q.x), sq_nonneg (p.y - q.y)]
    exact Point.ext (by linarith) (by linarith)
  · intro h
    rw [h]
    ring

theorem Point.dist_pos (p q : Point) (h : p ≠ q) : 0 < Point.dist p q := by
  rcases lt_or_eq_of_le (Point.dist_nonneg p q) with hlt | heq
  · exact hlt
  · exact absurd ((Point.dist_eq_zero_iff p q).mp heq.symm) h

theorem Circle.radius_nonneg (c : Circle) : 0 ≤ c.radius :=
  Point.dist_nonneg _ _

theorem Circle.radius_sq (c : Circle) : c.radius^2 = c.r2 :=
  Point.dist_sq _ _

theorem Circle.r2_nonneg (c : Circle) : 0 ≤ c.r2 := by
  unfold Circle.r2
  positivity

theorem Circle.radius_pos (c : Circle) (h : c.center ≠ c.other_point) :
    0 < c.radius :=
  Point.dist_pos _ _ h

theorem onC_other (c : Circle) : onC c.other_point c := by
  unfold onC Circle.r2
  ring

theorem onL_p1 (l : Line) : onL l.p1 l := by
  unfold onL Line.A Line.B Line.C
  ring

theorem onL_p2 (l : Line) : onL l.p2 l := by
  unfold onL Line.A Line.B Line.C
  ring

theorem onL_iff_cross (X a b : Point) :
    onL X ⟨a, b⟩ ↔ (X.x - a.x) * (b.y - a.y) - (X.y - a.y) * (b.x - a.x) = 0 := by
  unfold onL Line.A Line.B Line.C
  constructor
  · intro h
    linear_combination -h
  · intro h
    linear_combination -h

theorem line_AB_ne (p1 p2 : Point) (h : p1 ≠ p2) :
    ¬(Line.A ⟨p1, p2⟩ = 0 ∧ Line.B ⟨p1, p2⟩ = 0) := by
  rintro ⟨hA, hB⟩
  unfold Line.A at hA
  unfold Line.B at hB
  exact h (Point.ext (by linarith) (by linarith))

theorem line_ABsq_pos (p1 p2 : Point) (h : p1 ≠ p2) :
    0 < (Line.A ⟨p1, p2⟩)^2 + (Line.B ⟨p1, p2⟩)^2 := by
  rcases not_and_or.mp (line_AB_ne p1 p2 h) with hA | hB
  · have h2 : 0 < (Line.A ⟨p1, p2⟩)^2 := by positivity
    nlinarith [sq_nonneg (Line.B ⟨p1, p2⟩)]
  · have h2 : 0 < (Line.B ⟨p1, p2⟩)^2 := by positivity
    nlinarith [sq_nonneg (Line.A ⟨p1, p2⟩)]

theorem line_ABsq_pos' (l : Line) (h : l.p1 ≠ l.p2) : 0 < l.A^2 + l.B^2 := by
  have := line_ABsq_pos l.p1 l.p2 h
  simpa using this

theorem dist_from_point_nonneg (l : Line) (p : Point) :
    0 ≤ l.dist_from_point p := by
  unfold Line.dist_from_point
  positivity

theorem dist_from_point_sq (l : Line) (h : l.p1 ≠ l.p2) (p : Point) :
    (l.dist_from_point p)^2 * (l.A^2 + l.B^2) =
      (l.A * p.x + l.B * p.y + l.C)^2 := by
  unfold Line.dist_from_point
  rw [div_pow, sq_abs, Real.sq_sqrt (le_of_lt (line_ABsq_pos' l h))]
  field_simp [ne_of_gt (line_ABsq_pos' l h)]

theorem dist_from_point_eq_zero_iff (l : Line) (h : l.p1 ≠ l.p2) (p : Point) :
    l.dist_from_point p = 0 ↔ onL p l := by
  unfold Line.dist_from_point onL
  rw [div_eq_zero_iff]
  have hs : Real.sqrt (l.A^2 + l.B^2) ≠ 0 := by
    rw [Real.sqrt_ne_zero']
    exact line_ABsq_pos' l h
  simp [hs, abs_eq_zero]

theorem get_intersection_spec (l1 l2 : Line)
    (hd : l1.A * l2.B - l1.B * l2.A ≠ 0) :
    ∃ P, Line.get_intersection l1 l2 = some P ∧ onL P l1 ∧ onL P l2 := by
  refine ⟨⟨(l1.A * l2.B - l1.B * l2.A)⁻¹ * (l2.B * (-l1.C) + l1.B * l2.C),
      (l1.A * l2.B - l1.B * l2.A)⁻¹ * (l2.A * l1.C - l1.A * l2.C)⟩, ?_, ?_, ?_⟩
  · unfold Line.get_intersection
    rw [if_neg hd]
  · unfold onL
    field_simp
    ring
  · unfold onL
    field_simp
    ring

theorem onL_iff_of_linear (a b : Point) (hab : a ≠ b) (al be ga : ℝ)
    (hab2 : ¬(al = 0 ∧ be = 0))
    (ha : al * a.x + be * a.y + ga = 0) (hb : al * b.x + be * b.y + ga = 0)
    (X : Point) : onL X ⟨a, b⟩ ↔ al * X.x + be * X.y + ga = 0 := by
  rw [onL_iff_cross]
  have id1 : be * ((X.x - a.x) * (b.y - a.y) - (X.y - a.y) * (b.x - a.x)) +
      (b.x - a.x) * (al * X.x + be * X.y + ga) = 0 := by
    linear_combination (X.x - a.x) * hb + (b.x - a.x - (X.x - a.x)) * ha
  have id2 : al * ((X.x - a.x) * (b.y - a.y) - (X.y - a.y) * (b.x - a.x)) -
      (b.y - a.y) * (al * X.x + be * X.y + ga) = 0 := by
    linear_combination (a.y - X.y) * hb - (a.y - X.y) * ha - (b.y - a.y) * ha
  constructor
  · intro h
    rcases not_and_or.mp hab2 with h0 | h0
    · have := id2
      rw [h] at this
      have h2 : (b.y - a.y) * (al * X.x + be * X.y + ga) = 0 := by linarith
      rcases mul_eq_zero.mp h2 with h3 | h3
      · -- b.y = a.y; then use id1 with b.x ≠ a.x
        have hbx : b.x - a.x ≠ 0 := by
          intro h4
          exact hab (Point.ext (by linarith) (by linarith [h3]))
        have := id1
        rw [h] at this
        have h5 : (b.x - a.x) * (al * X.x + be * X.y + ga) = 0 := by linarith
        rcases mul_eq_zero.mp h5 with h6 | h6
        · exact absurd h6 hbx
        · exact h6
      · exact h3
    · have := id1
      rw [h] at this
      have h2 : (b.x - a.x) * (al * X.x + be * X.y + ga) = 0 := by linarith
      rcases mul_eq_zero.mp h2 with h3 | h3
      · have hby : b.y - a.y ≠ 0 := by
          intro h4
          exact hab (Point.ext (by linarith [h3]) (by linarith))
        have := id2
        rw [h] at this
        have h5 : (b.y - a.y) * (al * X.x + be * X.y + ga) = 0 := by linarith
        rcases mul_eq_zero.mp h5 with h6 | h6
        · exact absurd h6 hby
        · exact h6
      · exact h3
  · intro h
    rcases not_and_or.mp hab2 with h0 | h0
    · have h2 : al * ((X.x - a.x) * (b.y - a.y) - (X.y - a.y) * (b.x - a.x)) = 0 := by
        rw [h] at id2
        linarith
      rcases mul_eq_zero.mp h2 with h3 | h3
      · exact absurd h3 h0
      · exact h3
    · have h2 : be * ((X.x - a.x) * (b.y - a.y) - (X.y - a.y) * (b.x - a.x)) = 0 := by
        rw [h] at id1
        linarith
      rcases mul_eq_zero.mp h2 with h3 | h3
      · exact absurd h3 h0
      · exact h3

theorem slope_eq_neg_div (l : Line) : l.slope = -l.A / l.B := by
  unfold Line.slope Line.A Line.B
  rw [neg_sub]

theorem intercept_eq_neg_div (l : Line) (hB : l.B ≠ 0) :
    l.intercept = -l.C / l.B := by
  unfold Line.intercept Line.C
  rw [slope_eq_neg_div]
  unfold Line.A Line.B
  unfold Line.B at hB
  field_simp
  ring

theorem onL_iff_slope (l : Line) (hB : l.B ≠ 0) (X : Point) :
    onL X l ↔ X.y = l.slope * X.x + l.intercept := by
  rw [slope_eq_neg_div, intercept_eq_neg_div l hB]
  unfold onL
  rw [show -l.A/l.B * X.x + -l.C/l.B = (-(l.A * X.x) - l.C)/l.B by ring,
    eq_div_iff hB]
  constructor
  · intro h
    linear_combination h
  · intro h
    linear_combination h

theorem y0_eq (l : Line) (hl : l.p1 ≠ l.p2) (hA : l.A = 0) :
    -l.C / l.B = l.p1.y := by
  have hB : l.B ≠ 0 := by
    intro hB
    exact line_AB_ne l.p1 l.p2 hl ⟨hA, hB⟩
  unfold Line.A at hA
  unfold Line.B at hB
  unfold Line.C Line.B
  rw [div_eq_iff hB]
  have h2 : l.p2.y = l.p1.y := by linarith
  rw [h2]
  ring

theorem onL_iff_A0 (l : Line) (hl : l.p1 ≠ l.p2) (hA : l.A = 0) (X : Point) :
    onL X l ↔ X.y = l.p1.y := by
  have hB : l.B ≠ 0 := by
    intro hB
    exact line_AB_ne l.p1 l.p2 hl ⟨hA, hB⟩
  have hC : l.C = -l.B * l.p1.y := by
    have h := y0_eq l hl hA
    rw [div_eq_iff hB] at h
    linarith [h]
  unfold onL
  rw [hA, hC]
  constructor
  · intro h
    have h2 : l.B * (X.y - l.p1.y) = 0 := by linarith
    rcases mul_eq_zero.mp h2 with h3 | h3
    · exact absurd h3 hB
    · linarith
  · intro h
    rw [h]
    ring

theorem x0_eq (l : Line) (hl : l.p1 ≠ l.p2) (hB : l.B = 0) :
    -l.C / l.A = l.p1.x := by
  have hA : l.A ≠ 0 := by
    intro hA
    exact line_AB_ne l.p1 l.p2 hl ⟨hA, hB⟩
  unfold Line.B at hB
  unfold Line.A at hA
  unfold Line.C Line.A
  rw [div_eq_iff hA]
  have h2 : l.p2.x = l.p1.x := by linarith
  rw [h2]
  ring

theorem onL_iff_B0 (l : Line) (hl : l.p1 ≠ l.p2) (hB : l.B = 0) (X : Point) :
    onL X l ↔ X.x = l.p1.x := by
  have hA : l.A ≠ 0 := by
    intro hA
    exact line_AB_ne l.p1 l.p2 hl ⟨hA, hB⟩
  have hC : l.C = -l.A * l.p1.x := by
    have h := x0_eq l hl hB
    rw [div_eq_iff hA] at h
    linarith [h]
  unfold onL
  rw [hB, hC]
  constructor
  · intro h
    have h2 : l.A * (X.x - l.p1.x) = 0 := by linarith
    rcases mul_eq_zero.mp h2 with h3 | h3
    · exact absurd h3 hA
    · linarith
  · intro h
    rw [h]
    ring

theorem dfp_sq_A0 (l : Line) (hl : l.p1 ≠ l.p2) (hA : l.A = 0) (p : Point) :
    (l.dist_from_point p)^2 = (-l.C/l.B - p.y)^2 := by
  have hB : l.B ≠ 0 := by
    intro hB
    exact line_AB_ne l.p1 l.p2 hl ⟨hA, hB⟩
  have h := dist_from_point_sq l hl p
  rw [hA] at h
  have h' : (l.dist_from_point p)^2 * l.B^2 = (l.B * p.y + l.C)^2 := by
    linear_combination h
  have hBB : l.B^2 ≠ 0 := pow_ne_zero 2 hB
  rw [show -l.C/l.B - p.y = (-l.C - l.B * p.y)/l.B by field_simp,
    div_pow, eq_div_iff hBB]
  linear_combination h'

theorem dfp_sq_B0 (l : Line) (hl : l.p1 ≠ l.p2) (hB : l.B = 0) (p : Point) :
    (l.dist_from_point p)^2 = (-l.C/l.A - p.x)^2 := by
  have hA : l.A ≠ 0 := by
    intro hA
    exact line_AB_ne l.p1 l.p2 hl ⟨hA, hB⟩
  have h := dist_from_point_sq l hl p
  rw [hB] at h
  have h' : (l.dist_from_point p)^2 * l.A^2 = (l.A * p.x + l.C)^2 := by
    linear_combination h
  have hAA : l.A^2 ≠ 0 := pow_ne_zero 2 hA
  rw [show -l.C/l.A - p.x = (-l.C - l.A * p.x)/l.A by field_simp,
    div_pow, eq_div_iff hAA]
  linear_combination h'

theorem dfp_sq_slope (l : Line) (hl : l.p1 ≠ l.p2) (hB : l.B ≠ 0) (p : Point) :
    (l.dist_from_point p)^2 * (l.slope^2 + 1) =
      (l.slope * p.x - p.y + l.intercept)^2 := by
  rw [slope_eq_neg_div, intercept_eq_neg_div l hB]
  have h := dist_from_point_sq l hl p
  have hBB : l.B^2 ≠ 0 := pow_ne_zero 2 hB
  field_simp
  linear_combination h

theorem circleLine_lt_rad_sq (c : Circle) (l : Line)
    (hd : l.dist_from_point c.center < c.radius) :
    (l.dist_from_point c.center)^2 < c.radius^2 := by
  have h0 : 0 ≤ l.dist_from_point c.center := dist_from_point_nonneg l c.center
  nlinarith

theorem circleLine_A0_eq (c : Circle) (l : Line) (hA : l.A = 0)
    (hd : l.dist_from_point c.center < c.radius) :
    c.intersect_with_line l =
      [⟨c.center.x + Real.sqrt (c.radius^2 - (-l.C/l.B - c.center.y)^2), -l.C/l.B⟩,
       ⟨c.center.x - Real.sqrt (c.radius^2 - (-l.C/l.B - c.center.y)^2), -l.C/l.B⟩] := by
  unfold Circle.intersect_with_line
  rw [if_pos hd]
  rw [if_pos hA]

theorem circleLine_B0_eq (c : Circle) (l : Line) (hA : l.A ≠ 0) (hB : l.B = 0)
    (hd : l.dist_from_point c.center < c.radius) :
    c.intersect_with_line l =
      [⟨-l.C/l.A, c.center.y + Real.sqrt (c.radius^2 - (-l.C/l.A - c.center.x)^2)⟩,
       ⟨-l.C/l.A, c.center.y - Real.sqrt (c.radius^2 - (-l.C/l.A - c.center.x)^2)⟩] := by
  unfold Circle.intersect_with_line
  rw [if_pos hd]
  rw [if_neg hA]
  rw [if_pos hB]

theorem circleLine_tangent_len (c : Circle) (l : Line)
    (hd : l.dist_from_point c.center = c.radius) :
    (c.intersect_with_line l).length = 1 := by
  have hnlt : ¬ l.dist_from_point c.center < c.radius := by rw [hd]; exact lt_irrefl _
  unfold Circle.intersect_with_line
  rw [if_neg hnlt, if_pos hd]
  by_cases hA : l.A = 0
  · rw [if_pos hA]
    rfl
  · rw [if_neg hA]
    by_cases hB : l.B = 0
    · rw [if_pos hB]
      rfl
    · rw [if_neg hB]
      rfl

theorem circleLine_A0_char (c : Circle) (l : Line) (hl : l.p1 ≠ l.p2)
    (hA : l.A = 0) (hd : l.dist_from_point c.center < c.radius) :
    ∃ P Q : Point, c.intersect_with_line l = [P, Q] ∧ P ≠ Q ∧
      onL P l ∧ onC P c ∧ onL Q l ∧ onC Q c ∧
      (∀ X : Point, onL X l → onC X c → X = P ∨ X = Q) := by
  have heq := circleLine_A0_eq c l hA hd
  rw [y0_eq l hl hA] at heq
  have hw : 0 < c.radius^2 - (l.p1.y - c.center.y)^2 := by
    have h1 := dfp_sq_A0 l hl hA c.center
    rw [y0_eq l hl hA] at h1
    have h2 := circleLine_lt_rad_sq c l hd
    nlinarith [h1, h2]
  have hxs2 : (Real.sqrt (c.radius^2 - (l.p1.y - c.center.y)^2))^2 =
      c.radius^2 - (l.p1.y - c.center.y)^2 := Real.sq_sqrt hw.le
  have hxs : 0 < Real.sqrt (c.radius^2 - (l.p1.y - c.center.y)^2) :=
    Real.sqrt_pos.mpr hw
  have hr2 := Circle.radius_sq c
  refine ⟨_, _, heq, ?_, ?_, ?_, ?_, ?_, ?_⟩
  · intro h
    have hx := congrArg Point.x h
    simp only at hx
    linarith
  · rw [onL_iff_A0 l hl hA]
  · unfold onC
    simp only
    linear_combination hxs2 + hr2
  · rw [onL_iff_A0 l hl hA]
  · unfold onC
    simp only
    linear_combination hxs2 + hr2
  · intro X hXl hXc
    have hXy : X.y = l.p1.y := (onL_iff_A0 l hl hA X).mp hXl
    unfold onC at hXc
    have hfac : (X.x - c.center.x - Real.sqrt (c.radius^2 - (l.p1.y - c.center.y)^2)) *
        (X.x - c.center.x + Real.sqrt (c.radius^2 - (l.p1.y - c.center.y)^2)) = 0 := by
      rw [hXy] at hXc
      linear_combination hXc - hxs2 - hr2
    rcases mul_eq_zero.mp hfac with h3 | h3
    · left
      have hx : X.x = c.center.x + Real.sqrt (c.radius^2 - (l.p1.y - c.center.y)^2) := by
        linarith
      exact Point.ext hx hXy
    · right
      have hx : X.x = c.center.x - Real.sqrt (c.radius^2 - (l.p1.y - c.center.y)^2) := by
        linarith
      exact Point.ext hx hXy

theorem circleLine_B0_char (c : Circle) (l : Line) (hl : l.p1 ≠ l.p2)
    (hA : l.A ≠ 0) (hB : l.B = 0) (hd : l.dist_from_point c.center < c.radius) :
    ∃ P Q : Point, c.intersect_with_line l = [P, Q] ∧ P ≠ Q ∧
      onL P l ∧ onC P c ∧ onL Q l ∧ onC Q c ∧
      (∀ X : Point, onL X l → onC X c → X = P ∨ X = Q) := by
  have heq := circleLine_B0_eq c l hA hB hd
  rw [x0_eq l hl hB] at heq
  have hw : 0 < c.radius^2 - (l.p1.x - c.center.x)^2 := by
    have h1 := dfp_sq_B0 l hl hB c.center
    rw [x0_eq l hl hB] at h1
    have h2 := circleLine_lt_rad_sq c l hd
    nlinarith [h1, h2]
  have hxs2 : (Real.sqrt (c.radius^2 - (l.p1.x - c.center.x)^2))^2 =
      c.radius^2 - (l.p1.x - c.center.x)^2 := Real.sq_sqrt hw.le
  have hxs : 0 < Real.sqrt (c.radius^2 - (l.p1.x - c.center.x)^2) :=
    Real.sqrt_pos.mpr hw
  have hr2 := Circle.radius_sq c
  refine ⟨_, _, heq, ?_, ?_, ?_, ?_, ?_, ?_⟩
  · intro h
    have hy := congrArg Point.y h
    simp only at hy
    linarith
  · rw [onL_iff_B0 l hl hB]
  · unfold onC
    simp only
    linear_combination hxs2 + hr2
  · rw [onL_iff_B0 l hl hB]
  · unfold onC
    simp only
    linear_combination hxs2 + hr2
  · intro X hXl hXc
    have hXx : X.x = l.p1.x := (onL_iff_B0 l hl hB X).mp hXl
    unfold onC at hXc
    have hfac : (X.y - c.center.y - Real.sqrt (c.radius^2 - (l.p1.x - c.center.x)^2)) *
        (X.y - c.center.y + Real.sqrt (c.radius^2 - (l.p1.x - c.center.x)^2)) = 0 := by
      rw [hXx] at hXc
      linear_combination hXc - hxs2 - hr2
    rcases mul_eq_zero.mp hfac with h3 | h3
    · left
      have hy : X.y = c.center.y + Real.sqrt (c.radius^2 - (l.p1.x - c.center.x)^2) := by
        linarith
      exact Point.ext hXx hy
    · right
      have hy : X.y = c.center.y - Real.sqrt (c.radius^2 - (l.p1.x - c.center.x)^2) := by
        linarith
      exact Point.ext hXx hy

theorem circleLine_slope_eq (c : Circle) (l : Line) (hA : l.A ≠ 0) (hB : l.B ≠ 0)
    (hd : l.dist_from_point c.center < c.radius) :
    c.intersect_with_line l =
      [l.atX ((-Real.sqrt (-c.center.x^2 * l.slope^2 + 2 * c.center.y * (c.center.x * l.slope + l.intercept) - 2 * c.center.x * l.intercept * l.slope - c.center.y^2 - l.intercept^2 + (l.slope * c.radius)^2 + c.radius^2) + c.center.x + c.center.y * l.slope - l.intercept * l.slope) / (l.slope^2 + 1)),
       l.atX ((Real.sqrt (-c.center.x^2 * l.slope^2 + 2 * c.center.y * (c.center.x * l.slope + l.intercept) - 2 * c.center.x * l.intercept * l.slope - c.center.y^2 - l.intercept^2 + (l.slope * c.radius)^2 + c.radius^2) + c.center.x + c.center.y * l.slope - l.intercept * l.slope) / (l.slope^2 + 1))] := by
  unfold Circle.intersect_with_line
  rw [if_pos hd]
  rw [if_neg hA]
  rw [if_neg hB]

theorem circleLine_slope_char (c : Circle) (l : Line) (hl : l.p1 ≠ l.p2)
    (hA : l.A ≠ 0) (hB : l.B ≠ 0) (hd : l.dist_from_point c.center < c.radius) :
    ∃ P Q : Point, c.intersect_with_line l = [P, Q] ∧ P ≠ Q ∧
      onL P l ∧ onC P c ∧ onL Q l ∧ onC Q c ∧
      (∀ X : Point, onL X l → onC X c → X = P ∨ X = Q) := by
  have heq := circleLine_slope_eq c l hA hB hd
  have hr2 := Circle.radius_sq c
  set cx := c.center.x with hcx
  set cy := c.center.y with hcy
  set s := l.slope with hs
  set i := l.intercept with hi
  set D := -cx^2 * s^2 + 2 * cy * (cx * s + i) - 2 * cx * i * s - cy^2 - i^2 +
    (s * c.radius)^2 + c.radius^2 with hD
  have hq : (0:ℝ) < s^2 + 1 := by positivity
  have hqne : s^2 + 1 ≠ 0 := ne_of_gt hq
  have hDpos : 0 < D := by
    have h1 := dfp_sq_slope l hl hB c.center
    rw [← hs, ← hi, ← hcx, ← hcy] at h1
    have h2 := circleLine_lt_rad_sq c l hd
    have key : D = (s^2 + 1) * (c.radius^2 - (l.dist_from_point c.center)^2) := by
      rw [hD]
      linear_combination h1
    rw [key]
    exact mul_pos hq (by linarith)
  set S := Real.sqrt D with hSdef
  have hS2 : S^2 = D := Real.sq_sqrt hDpos.le
  have hSpos : 0 < S := Real.sqrt_pos.mpr hDpos
  have hdiscrim : discrim (s^2 + 1) (-2 * (cx + cy * s - i * s))
      (cx^2 + (i - cy)^2 - c.r2) = (2 * S) * (2 * S) := by
    unfold discrim
    rw [show (2*S) * (2*S) = 4 * S^2 by ring, hS2, hD]
    rw [show (s * c.radius)^2 = s^2 * c.radius^2 by ring, hr2]
    ring
  have honC : ∀ x : ℝ, onC (l.atX x) c ↔
      (s^2 + 1) * (x * x) + (-2 * (cx + cy * s - i * s)) * x +
        (cx^2 + (i - cy)^2 - c.r2) = 0 := by
    intro x
    unfold onC Line.atX
    simp only
    rw [← hs, ← hi, ← hcx, ← hcy]
    constructor
    · intro h
      linear_combination h
    · intro h
      linear_combination h
  have hroot : ∀ x : ℝ, (s^2 + 1) * (x * x) + (-2 * (cx + cy * s - i * s)) * x +
      (cx^2 + (i - cy)^2 - c.r2) = 0 ↔
      x = (-(-2 * (cx + cy * s - i * s)) + 2 * S) / (2 * (s^2 + 1)) ∨
      x = (-(-2 * (cx + cy * s - i * s)) - 2 * S) / (2 * (s^2 + 1)) :=
    fun x => quadratic_eq_zero_iff hqne hdiscrim x
  have hx1eq : (-(-2 * (cx + cy * s - i * s)) - 2 * S) / (2 * (s^2 + 1)) =
      (-S + cx + cy * s - i * s) / (s^2 + 1) := by
    rw [div_eq_div_iff (by positivity) hqne]
    ring
  have hx2eq : (-(-2 * (cx + cy * s - i * s)) + 2 * S) / (2 * (s^2 + 1)) =
      (S + cx + cy * s - i * s) / (s^2 + 1) := by
    rw [div_eq_div_iff (by positivity) hqne]
    ring
  refine ⟨_, _, heq, ?_, ?_, ?_, ?_, ?_, ?_⟩
  · intro hPQ
    have hx := congrArg Point.x hPQ
    unfold Line.atX at hx
    simp only at hx
    rw [div_eq_div_iff hqne hqne] at hx
    nlinarith [hSpos, hq]
  · rw [onL_iff_slope l hB]
    rfl
  · rw [honC _]
    exact (hroot _).mpr (Or.inr hx1eq.symm)
  · rw [onL_iff_slope l hB]
    rfl
  · rw [honC _]
    exact (hroot _).mpr (Or.inl hx2eq.symm)
  · intro X hXl hXc
    have hXy : X.y = s * X.x + i := (onL_iff_slope l hB X).mp hXl
    have hXP : X = l.atX X.x := Point.ext rfl hXy
    rw [hXP] at hXc
    rcases (hroot X.x).mp ((honC X.x).mp hXc) with h | h
    · right
      rw [hXP, h, hx2eq]
    · left
      rw [hXP, h, hx1eq]

theorem circleLine_char (c : Circle) (l : Line) (hl : l.p1 ≠ l.p2)
    (hd : l.dist_from_point c.center < c.radius) :
    ∃ P Q : Point, c.intersect_with_line l = [P, Q] ∧ P ≠ Q ∧
      onL P l ∧ onC P c ∧ onL Q l ∧ onC Q c ∧
      (∀ X : Point, onL X l → onC X c → X = P ∨ X = Q) := by
  by_cases hA : l.A = 0
  · exact circleLine_A0_char c l hl hA hd
  · by_cases hB : l.B = 0
    · exact circleLine_B0_char c l hl hA hB hd
    · exact circleLine_slope_char c l hl hA hB hd

theorem ccDen_eq (c1 c2 : Circle) : ccDen c1 c2 =
    8 * ((c1.center.x - c2.center.x)^2 + (c1.center.y - c2.center.y)^2) := by
  unfold ccDen
  ring

theorem ccInner_eq (c1 c2 : Circle) (hr : c1.r2 = c2.r2) :
    ccInner c1 c2 =
      16 * ((c1.center.x - c2.center.x)^2 + (c1.center.y - c2.center.y)^2) *
        (c1.center.x - c2.center.x)^2 *
        (4 * c1.r2 -
          ((c1.center.x - c2.center.x)^2 + (c1.center.y - c2.center.y)^2)) := by
  have h2a : c1.radius^2 = c1.r2 := Circle.radius_sq c1
  have h2b : c2.radius^2 = c2.r2 := Circle.radius_sq c2
  have h4a : c1.radius^4 = c1.r2^2 := by
    rw [show (4:ℕ) = 2*2 from rfl, pow_mul, h2a]
  have h4b : c2.radius^4 = c2.r2^2 := by
    rw [show (4:ℕ) = 2*2 from rfl, pow_mul, h2b]
  unfold ccInner
  ring_nf
  rw [h4a, h4b, h2a, h2b, hr]
  ring

theorem ccNum_eq (c1 c2 : Circle) (hr : c1.r2 = c2.r2) (S : ℝ) :
    4 * c1.center.x * c1.center.x * c1.center.y - 4 * c1.center.x * c1.center.x * c2.center.y - S - 8 * c1.center.x * c1.center.y * c2.center.x + 8 * c1.center.x * c2.center.x * c2.center.y + 4 * c1.center.y * c1.center.y * c1.center.y - 12 * c1.center.y * c1.center.y * c2.center.y + 4 * c1.center.y * c2.center.x * c2.center.x + 12 * c1.center.y * c2.center.y * c2.center.y + 4 * c1.center.y * c1.radius * c1.radius - 4 * c1.center.y * c2.radius * c2.radius - 4 * c2.center.x * c2.center.x * c2.center.y - 4 * c2.center.y * c2.center.y * c2.center.y - 4 * c2.center.y * c1.radius * c1.radius + 4 * c2.center.y * c2.radius * c2.radius =
      4 * (c1.center.y - c2.center.y) *
        ((c1.center.x - c2.center.x)^2 + (c1.center.y - c2.center.y)^2) - S := by
  have h2a : c1.radius^2 = c1.r2 := Circle.radius_sq c1
  have h2b : c2.radius^2 = c2.r2 := Circle.radius_sq c2
  ring_nf
  rw [h2a, h2b, hr]
  ring

theorem centers_D2_pos (c1 c2 : Circle) (hcc : c1.center ≠ c2.center) :
    0 < (c1.center.x - c2.center.x)^2 + (c1.center.y - c2.center.y)^2 := by
  by_cases hx : c1.center.x - c2.center.x = 0
  · have hy : c1.center.y - c2.center.y ≠ 0 := by
      intro hy
      exact hcc (Point.ext (by linarith) (by linarith))
    have h1 : 0 < (c1.center.y - c2.center.y)^2 := by positivity
    nlinarith [sq_nonneg (c1.center.x - c2.center.x)]
  · have h1 : 0 < (c1.center.x - c2.center.x)^2 := by positivity
    nlinarith [sq_nonneg (c1.center.y - c2.center.y)]

theorem ccSqrtInner_eq (c1 c2 : Circle) (hr : c1.r2 = c2.r2)
    (hcc : c1.center ≠ c2.center)
    (hD4 : (c1.center.x - c2.center.x)^2 + (c1.center.y - c2.center.y)^2 <
      4 * c1.r2) :
    Real.sqrt (ccInner c1 c2) =
      4 * Real.sqrt ((c1.center.x - c2.center.x)^2 + (c1.center.y - c2.center.y)^2) *
        |c1.center.x - c2.center.x| *
        Real.sqrt (4 * c1.r2 -
          ((c1.center.x - c2.center.x)^2 + (c1.center.y - c2.center.y)^2)) := by
  have hD2pos := centers_D2_pos c1 c2 hcc
  have hG0 : (0:ℝ) ≤ 4 * c1.r2 -
      ((c1.center.x - c2.center.x)^2 + (c1.center.y - c2.center.y)^2) := by
    linarith
  rw [ccInner_eq c1 c2 hr]
  rw [show 16 * ((c1.center.x - c2.center.x)^2 + (c1.center.y - c2.center.y)^2) *
        (c1.center.x - c2.center.x)^2 *
        (4 * c1.r2 - ((c1.center.x - c2.center.x)^2 + (c1.center.y - c2.center.y)^2)) =
      (4 * Real.sqrt ((c1.center.x - c2.center.x)^2 + (c1.center.y - c2.center.y)^2) *
        |c1.center.x - c2.center.x| *
        Real.sqrt (4 * c1.r2 -
          ((c1.center.x - c2.center.x)^2 + (c1.center.y - c2.center.y)^2)))^2 from by
    rw [mul_pow, mul_pow, mul_pow, Real.sq_sqrt hD2pos.le, Real.sq_sqrt hG0, sq_abs]
    ring]
  exact Real.sqrt_sq (by positivity)

theorem ccY1_eq (c1 c2 : Circle) (hr : c1.r2 = c2.r2)
    (hcc : c1.center ≠ c2.center)
    (hD4 : (c1.center.x - c2.center.x)^2 + (c1.center.y - c2.center.y)^2 <
      4 * c1.r2) :
    ccY1 c1 c2 = (c1.center.y + c2.center.y)/2 +
      |c1.center.x - c2.center.x| *
        Real.sqrt (4 * c1.r2 -
          ((c1.center.x - c2.center.x)^2 + (c1.center.y - c2.center.y)^2)) /
        (2 * Real.sqrt ((c1.center.x - c2.center.x)^2 + (c1.center.y - c2.center.y)^2)) := by
  have hD2pos := centers_D2_pos c1 c2 hcc
  have hu2 : Real.sqrt ((c1.center.x - c2.center.x)^2 + (c1.center.y - c2.center.y)^2) *
      Real.sqrt ((c1.center.x - c2.center.x)^2 + (c1.center.y - c2.center.y)^2) =
      (c1.center.x - c2.center.x)^2 + (c1.center.y - c2.center.y)^2 :=
    Real.mul_self_sqrt hD2pos.le
  have hune : Real.sqrt ((c1.center.x - c2.center.x)^2 + (c1.center.y - c2.center.y)^2) ≠ 0 :=
    Real.sqrt_ne_zero'.mpr hD2pos
  unfold ccY1
  rw [ccNum_eq c1 c2 hr, ccSqrtInner_eq c1 c2 hr hcc hD4, ccDen_eq]
  rw [← sub_eq_zero]
  field_simp
  linear_combination (16 * |c1.center.x - c2.center.x| *
    Real.sqrt (4 * c1.r2 -
      ((c1.center.x - c2.center.x)^2 + (c1.center.y - c2.center.y)^2))) * hu2

theorem ccNumP_eq (c1 c2 : Circle) (hr : c1.r2 = c2.r2) (S : ℝ) :
    4 * c1.center.x * c1.center.x * c1.center.y - 4 * c1.center.x * c1.center.x * c2.center.y + S - 8 * c1.center.x * c1.center.y * c2.center.x + 8 * c1.center.x * c2.center.x * c2.center.y + 4 * c1.center.y * c1.center.y * c1.center.y - 12 * c1.center.y * c1.center.y * c2.center.y + 4 * c1.center.y * c2.center.x * c2.center.x + 12 * c1.center.y * c2.center.y * c2.center.y + 4 * c1.center.y * c1.radius * c1.radius - 4 * c1.center.y * c2.radius * c2.radius - 4 * c2.center.x * c2.center.x * c2.center.y - 4 * c2.center.y * c2.center.y * c2.center.y - 4 * c2.center.y * c1.radius * c1.radius + 4 * c2.center.y * c2.radius * c2.radius =
      4 * (c1.center.y - c2.center.y) *
        ((c1.center.x - c2.center.x)^2 + (c1.center.y - c2.center.y)^2) + S := by
  have h2a : c1.radius^2 = c1.r2 := Circle.radius_sq c1
  have h2b : c2.radius^2 = c2.r2 := Circle.radius_sq c2
  ring_nf
  rw [h2a, h2b, hr]
  ring

theorem ccY2_eq (c1 c2 : Circle) (hr : c1.r2 = c2.r2)
    (hcc : c1.center ≠ c2.center)
    (hD4 : (c1.center.x - c2.center.x)^2 + (c1.center.y - c2.center.y)^2 <
      4 * c1.r2) :
    ccY2 c1 c2 = (c1.center.y + c2.center.y)/2 -
      |c1.center.x - c2.center.x| *
        Real.sqrt (4 * c1.r2 -
          ((c1.center.x - c2.center.x)^2 + (c1.center.y - c2.center.y)^2)) /
        (2 * Real.sqrt ((c1.center.x - c2.center.x)^2 + (c1.center.y - c2.center.y)^2)) := by
  have hD2pos := centers_D2_pos c1 c2 hcc
  have hu2 : Real.sqrt ((c1.center.x - c2.center.x)^2 + (c1.center.y - c2.center.y)^2) *
      Real.sqrt ((c1.center.x - c2.center.x)^2 + (c1.center.y - c2.center.y)^2) =
      (c1.center.x - c2.center.x)^2 + (c1.center.y - c2.center.y)^2 :=
    Real.mul_self_sqrt hD2pos.le
  have hune : Real.sqrt ((c1.center.x - c2.center.x)^2 + (c1.center.y - c2.center.y)^2) ≠ 0 :=
    Real.sqrt_ne_zero'.mpr hD2pos
  unfold ccY2
  rw [ccNumP_eq c1 c2 hr, ccSqrtInner_eq c1 c2 hr hcc hD4, ccDen_eq]
  rw [← sub_eq_zero]
  field_simp
  linear_combination (-16 * |c1.center.x - c2.center.x| *
    Real.sqrt (4 * c1.r2 -
      ((c1.center.x - c2.center.x)^2 + (c1.center.y - c2.center.y)^2))) * hu2

theorem pickX_spec (a1 t1 a2 t2 v : ℝ) (h1 : t1 = |v - a1|) (h2 : t2 = |v - a2|)
    (hne : a1 ≠ a2) :
    pickX (a1 + t1, a1 - t1) (a2 + t2, a2 - t2) = some v := by
  have hv1 : a1 + t1 = v ∨ a1 - t1 = v := by
    rcases abs_cases (v - a1) with ⟨he, _⟩ | ⟨he, _⟩
    · left
      rw [h1, he]
      ring
    · right
      rw [h1, he]
      ring
  have hv2 : a2 + t2 = v ∨ a2 - t2 = v := by
    rcases abs_cases (v - a2) with ⟨he, _⟩ | ⟨he, _⟩
    · left
      rw [h2, he]
      ring
    · right
      rw [h2, he]
      ring
  unfold pickX
  simp only
  split_ifs with hc1 hc2
  · congr 1
    rcases hv1 with hv | hv
    · rcases hc1 with hc | hc
      · rcases hv2 with hw | hw
        · linarith
        · exfalso
          exact hne (by linarith)
      · rcases hv2 with hw | hw
        · exfalso
          exact hne (by linarith)
        · linarith
    · exact hv
  · congr 1
    rcases hv1 with hv | hv
    · exact hv
    · exfalso
      apply hc1
      rcases hv2 with hw | hw
      · left
        linarith
      · right
        linarith
  · exfalso
    rcases hv1 with hv | hv
    · apply hc2
      rcases hv2 with hw | hw
      · left
        linarith
      · right
        linarith
    · apply hc1
      rcases hv2 with hw | hw
      · left
        linarith
      · right
        linarith

theorem radius_eq_sqrt_r2 (c : Circle) : c.radius = Real.sqrt c.r2 := rfl

theorem dist_centers_eq_sqrt (c1 c2 : Circle) :
    Point.dist c1.center c2.center =
      Real.sqrt ((c1.center.x - c2.center.x)^2 + (c1.center.y - c2.center.y)^2) := rfl

theorem cc_entry (c1 c2 : Circle) (hr : c1.r2 = c2.r2)
    (hD4 : (c1.center.x - c2.center.x)^2 + (c1.center.y - c2.center.y)^2 <
      4 * c1.r2) :
    Point.dist c1.center c2.center < c1.radius + c2.radius := by
  rw [dist_centers_eq_sqrt, radius_eq_sqrt_r2, radius_eq_sqrt_r2, ← hr]

  have h4 : Real.sqrt (4 * c1.r2) = Real.sqrt c1.r2 + Real.sqrt c1.r2 := by
    rw [show (4:ℝ) * c1.r2 = 2^2 * c1.r2 by ring, Real.sqrt_mul (by positivity),
      Real.sqrt_sq (by norm_num)]
    ring
  calc Real.sqrt ((c1.center.x - c2.center.x)^2 + (c1.center.y - c2.center.y)^2)
      < Real.sqrt (4 * c1.r2) := Real.sqrt_lt_sqrt (by positivity) hD4
    _ = Real.sqrt c1.r2 + Real.sqrt c1.r2 := h4

theorem apex_sq (cx1 cy1 cx2 cy2 R E : ℝ) (hdx : cx1 - cx2 ≠ 0)
    (hE2 : E^2 = (cx1 - cx2)^2 * (4*R - ((cx1 - cx2)^2 + (cy1 - cy2)^2)) /
      (4 * ((cx1 - cx2)^2 + (cy1 - cy2)^2))) :
    R - ((cy1 + cy2)/2 + E - cy1)^2 =
      ((cx1 + cx2)/2 - (cy1 - cy2) * E / (cx1 - cx2) - cx1)^2 := by
  rw [eq_div_iff (by positivity)] at hE2
  field_simp
  linear_combination (-4 : ℝ) * hE2

theorem circleCircle_general (c1 c2 : Circle) (hr : c1.r2 = c2.r2)
    (hcc : c1.center ≠ c2.center)
    (hdx : c1.center.x - c2.center.x ≠ 0)
    (hD4 : (c1.center.x - c2.center.x)^2 + (c1.center.y - c2.center.y)^2 <
      4 * c1.r2) :
    Circle.get_intersection c1 c2 = some
      [⟨(c1.center.x + c2.center.x)/2 -
          (c1.center.y - c2.center.y) *
            (|c1.center.x - c2.center.x| *
              Real.sqrt (4 * c1.r2 -
                ((c1.center.x - c2.center.x)^2 + (c1.center.y - c2.center.y)^2)) /
              (2 * Real.sqrt ((c1.center.x - c2.center.x)^2 + (c1.center.y - c2.center.y)^2))) /
            (c1.center.x - c2.center.x),
        ccY1 c1 c2⟩,
       ⟨(c1.center.x + c2.center.x)/2 +
          (c1.center.y - c2.center.y) *
            (|c1.center.x - c2.center.x| *
              Real.sqrt (4 * c1.r2 -
                ((c1.center.x - c2.center.x)^2 + (c1.center.y - c2.center.y)^2)) /
              (2 * Real.sqrt ((c1.center.x - c2.center.x)^2 + (c1.center.y - c2.center.y)^2))) /
            (c1.center.x - c2.center.x),
        ccY2 c1 c2⟩] := by
  have hD2pos := centers_D2_pos c1 c2 hcc
  have hentry := cc_entry c1 c2 hr hD4
  have hy1 := ccY1_eq c1 c2 hr hcc hD4
  have hy2 := ccY2_eq c1 c2 hr hcc hD4
  have hGpos : (0:ℝ) < 4 * c1.r2 -
      ((c1.center.x - c2.center.x)^2 + (c1.center.y - c2.center.y)^2) := by
    linarith
  have hrad1 : c1.radius^2 = c1.r2 := Circle.radius_sq c1
  have hrad2 : c2.radius^2 = c2.r2 := Circle.radius_sq c2
  set dx := c1.center.x - c2.center.x with hdxe
  set dy := c1.center.y - c2.center.y with hdye
  set D2 := dx^2 + dy^2 with hD2e
  set g := Real.sqrt (4 * c1.r2 - D2) with hge
  set u := Real.sqrt D2 with hue
  set E := |dx| * g / (2 * u) with hEe
  have hgpos : 0 < g := Real.sqrt_pos.mpr hGpos
  have hupos : 0 < u := Real.sqrt_pos.mpr hD2pos
  have hg2 : g^2 = 4 * c1.r2 - D2 := Real.sq_sqrt hGpos.le
  have hu2 : u^2 = D2 := Real.sq_sqrt hD2pos.le
  have hEpos : 0 < E := by
    rw [hEe]
    exact div_pos (mul_pos (abs_pos.mpr hdx) hgpos) (by linarith)
  have hE2 : E^2 = dx^2 * (4 * c1.r2 - D2) / (4 * D2) := by
    rw [hEe, div_pow, mul_pow, sq_abs, hg2, mul_pow, hu2]
    norm_num
  have hcxne : c1.center.x ≠ c2.center.x := by
    intro h
    apply hdx
    rw [hdxe, h]
    ring
  have hY1c1 : ccY1 c1 c2 - c1.center.y = (c1.center.y + c2.center.y)/2 + E - c1.center.y := by
    rw [hy1]
  have hkey1 : c1.radius^2 - (ccY1 c1 c2 - c1.center.y)^2 =
      (((c1.center.x + c2.center.x)/2 - dy * E / dx) - c1.center.x)^2 := by
    rw [hY1c1, hrad1]
    exact apex_sq c1.center.x c1.center.y c2.center.x c2.center.y c1.r2 E hdx hE2
  have hkey2 : c2.radius^2 - (ccY1 c1 c2 - c2.center.y)^2 =
      (((c1.center.x + c2.center.x)/2 - dy * E / dx) - c2.center.x)^2 := by
    have hswap := apex_sq c2.center.x c2.center.y c1.center.x c1.center.y c1.r2 E
      (by rw [← neg_sub]; exact neg_ne_zero.mpr hdx)
      (by rw [hE2, hD2e, hdxe, hdye]; ring_nf)
    rw [hrad2, ← hr]
    calc c1.r2 - (ccY1 c1 c2 - c2.center.y)^2
        = c1.r2 - ((c2.center.y + c1.center.y)/2 + E - c2.center.y)^2 := by
          rw [hy1]
          ring_nf
      _ = ((c2.center.x + c1.center.x)/2 -
            (c2.center.y - c1.center.y) * E / (c2.center.x - c1.center.x) - c2.center.x)^2 :=
          hswap
      _ = (((c1.center.x + c2.center.x)/2 - dy * E / dx) - c2.center.x)^2 := by
          have hw : c2.center.x - c1.center.x ≠ 0 := sub_ne_zero.mpr (Ne.symm hcxne)
          have hdx0 : c1.center.x - c2.center.x ≠ 0 := sub_ne_zero.mpr hcxne
          have hinner : (c2.center.x + c1.center.x)/2 -
              (c2.center.y - c1.center.y) * E / (c2.center.x - c1.center.x) - c2.center.x =
              ((c1.center.x + c2.center.x)/2 - dy * E / dx) - c2.center.x := by
            rw [hdye, hdxe]
            field_simp
            ring
          rw [hinner]
  have hkey1b : c1.radius^2 - (ccY2 c1 c2 - c1.center.y)^2 =
      (((c1.center.x + c2.center.x)/2 + dy * E / dx) - c1.center.x)^2 := by
    have hneg := apex_sq c1.center.x c1.center.y c2.center.x c2.center.y c1.r2 (-E) hdx
      (by rw [neg_pow, hE2]; ring_nf)
    rw [hrad1]
    calc c1.r2 - (ccY2 c1 c2 - c1.center.y)^2
        = c1.r2 - ((c1.center.y + c2.center.y)/2 + (-E) - c1.center.y)^2 := by
          rw [hy2]
          ring_nf
      _ = ((c1.center.x + c2.center.x)/2 - dy * (-E) / dx - c1.center.x)^2 := hneg
      _ = (((c1.center.x + c2.center.x)/2 + dy * E / dx) - c1.center.x)^2 := by
          ring_nf
  have hkey2b : c2.radius^2 - (ccY2 c1 c2 - c2.center.y)^2 =
      (((c1.center.x + c2.center.x)/2 + dy * E / dx) - c2.center.x)^2 := by
    have hswap := apex_sq c2.center.x c2.center.y c1.center.x c1.center.y c1.r2 (-E)
      (by rw [← neg_sub]; exact neg_ne_zero.mpr hdx)
      (by rw [neg_pow, hE2, hD2e, hdxe, hdye]; ring_nf)
    rw [hrad2, ← hr]
    calc c1.r2 - (ccY2 c1 c2 - c2.center.y)^2
        = c1.r2 - ((c2.center.y + c1.center.y)/2 + (-E) - c2.center.y)^2 := by
          rw [hy2]
          ring_nf
      _ = ((c2.center.x + c1.center.x)/2 -
            (c2.center.y - c1.center.y) * (-E) / (c2.center.x - c1.center.x) - c2.center.x)^2 :=
          hswap
      _ = (((c1.center.x + c2.center.x)/2 + dy * E / dx) - c2.center.x)^2 := by
          have hw : c2.center.x - c1.center.x ≠ 0 := sub_ne_zero.mpr (Ne.symm hcxne)
          have hdx0 : c1.center.x - c2.center.x ≠ 0 := sub_ne_zero.mpr hcxne
          have hinner : (c2.center.x + c1.center.x)/2 -
              (c2.center.y - c1.center.y) * (-E) / (c2.center.x - c1.center.x) - c2.center.x =
              ((c1.center.x + c2.center.x)/2 + dy * E / dx) - c2.center.x := by
            rw [hdye, hdxe]
            field_simp
            ring
          rw [hinner]
  have hyne : ¬ ccY1 c1 c2 = ccY2 c1 c2 := by
    rw [hy1, hy2]
    intro h
    have : |dx| * g / (2*u) = 0 := by linarith
    rw [← hEe] at this
    linarith
  have ht1 : Real.sqrt (c1.radius^2 - (ccY1 c1 c2 - c1.center.y)^2) =
      |((c1.center.x + c2.center.x)/2 - dy * E / dx) - c1.center.x| := by
    rw [hkey1, Real.sqrt_sq_eq_abs]
  have ht2 : Real.sqrt (c2.radius^2 - (ccY1 c1 c2 - c2.center.y)^2) =
      |((c1.center.x + c2.center.x)/2 - dy * E / dx) - c2.center.x| := by
    rw [hkey2, Real.sqrt_sq_eq_abs]
  have ht1b : Real.sqrt (c1.radius^2 - (ccY2 c1 c2 - c1.center.y)^2) =
      |((c1.center.x + c2.center.x)/2 + dy * E / dx) - c1.center.x| := by
    rw [hkey1b, Real.sqrt_sq_eq_abs]
  have ht2b : Real.sqrt (c2.radius^2 - (ccY2 c1 c2 - c2.center.y)^2) =
      |((c1.center.x + c2.center.x)/2 + dy * E / dx) - c2.center.x| := by
    rw [hkey2b, Real.sqrt_sq_eq_abs]
  have hpick1 : pickX
      (c1.center.x + Real.sqrt (c1.radius^2 - (ccY1 c1 c2 - c1.center.y)^2),
       c1.center.x - Real.sqrt (c1.radius^2 - (ccY1 c1 c2 - c1.center.y)^2))
      (c2.center.x + Real.sqrt (c2.radius^2 - (ccY1 c1 c2 - c2.center.y)^2),
       c2.center.x - Real.sqrt (c2.radius^2 - (ccY1 c1 c2 - c2.center.y)^2)) =
      some ((c1.center.x + c2.center.x)/2 - dy * E / dx) := by
    rw [ht1, ht2]
    exact pickX_spec _ _ _ _ _ rfl rfl hcxne
  have hpick2 : pickX
      (c1.center.x + Real.sqrt (c1.radius^2 - (ccY2 c1 c2 - c1.center.y)^2),
       c1.center.x - Real.sqrt (c1.radius^2 - (ccY2 c1 c2 - c1.center.y)^2))
      (c2.center.x + Real.sqrt (c2.radius^2 - (ccY2 c1 c2 - c2.center.y)^2),
       c2.center.x - Real.sqrt (c2.radius^2 - (ccY2 c1 c2 - c2.center.y)^2)) =
      some ((c1.center.x + c2.center.x)/2 + dy * E / dx) := by
    rw [ht1b, ht2b]
    exact pickX_spec _ _ _ _ _ rfl rfl hcxne
  unfold Circle.get_intersection
  rw [if_pos hentry, if_neg hyne]
  simp only [hpick1, hpick2]

theorem circleCircle_vertical (c1 c2 : Circle) (hr : c1.r2 = c2.r2)
    (hcc : c1.center ≠ c2.center)
    (hdx : c1.center.x = c2.center.x)
    (hD4 : (c1.center.x - c2.center.x)^2 + (c1.center.y - c2.center.y)^2 <
      4 * c1.r2) :
    Circle.get_intersection c1 c2 = some
      [⟨c1.center.x + Real.sqrt (c1.r2 - ((c1.center.y - c2.center.y)/2)^2),
        (c1.center.y + c2.center.y)/2⟩,
       ⟨c1.center.x - Real.sqrt (c1.r2 - ((c1.center.y - c2.center.y)/2)^2),
        (c1.center.y + c2.center.y)/2⟩] := by
  have hentry := cc_entry c1 c2 hr hD4
  have hy1 := ccY1_eq c1 c2 hr hcc hD4
  have hy2 := ccY2_eq c1 c2 hr hcc hD4
  have hdx0 : c1.center.x - c2.center.x = 0 := by linarith
  rw [hdx0] at hy1 hy2
  simp only [abs_zero, zero_mul, zero_div, add_zero, sub_zero] at hy1 hy2
  have hyy : ccY1 c1 c2 = ccY2 c1 c2 := hy1.trans hy2.symm
  have hrad1 : c1.radius^2 = c1.r2 := Circle.radius_sq c1
  have harg : c1.radius^2 - (ccY1 c1 c2 - c1.center.y)^2 =
      c1.r2 - ((c1.center.y - c2.center.y)/2)^2 := by
    rw [hrad1, hy1]
    ring
  unfold Circle.get_intersection
  rw [if_pos hentry, if_pos hyy, harg, hy1, hy2]

theorem circleCircle_char (c1 c2 : Circle) (hr : c1.r2 = c2.r2)
    (hcc : c1.center ≠ c2.center)
    (hD4 : (c1.center.x - c2.center.x)^2 + (c1.center.y - c2.center.y)^2 <
      4 * c1.r2) :
    ∃ A1 A2 : Point, Circle.get_intersection c1 c2 = some [A1, A2] ∧ A1 ≠ A2 ∧
      onC A1 c1 ∧ onC A1 c2 ∧ onC A2 c1 ∧ onC A2 c2 := by
  have hD2pos := centers_D2_pos c1 c2 hcc
  by_cases hdx : c1.center.x - c2.center.x = 0
  · have hdx' : c1.center.x = c2.center.x := by linarith
    have hGpos : 0 < c1.r2 - ((c1.center.y - c2.center.y)/2)^2 := by
      nlinarith
    set t := Real.sqrt (c1.r2 - ((c1.center.y - c2.center.y)/2)^2) with hte
    have ht2 : t^2 = c1.r2 - ((c1.center.y - c2.center.y)/2)^2 :=
      Real.sq_sqrt hGpos.le
    have htpos : 0 < t := Real.sqrt_pos.mpr hGpos
    refine ⟨_, _, circleCircle_vertical c1 c2 hr hcc hdx' hD4, ?_, ?_, ?_, ?_, ?_⟩
    · intro h
      have hx := congrArg Point.x h
      simp only at hx
      linarith
    · unfold onC
      simp only
      linear_combination ht2
    · unfold onC
      simp only
      rw [← hr, ← hdx']
      linear_combination ht2
    · unfold onC
      simp only
      linear_combination ht2
    · unfold onC
      simp only
      rw [← hr, ← hdx']
      linear_combination ht2
  · have hEc := circleCircle_general c1 c2 hr hcc hdx hD4
    have hy1 := ccY1_eq c1 c2 hr hcc hD4
    have hy2 := ccY2_eq c1 c2 hr hcc hD4
    have hdxr : c2.center.x - c1.center.x ≠ 0 := fun h => hdx (by linarith)
    have hE2raw : (|c1.center.x - c2.center.x| *
        Real.sqrt (4 * c1.r2 -
          ((c1.center.x - c2.center.x)^2 + (c1.center.y - c2.center.y)^2)) /
        (2 * Real.sqrt ((c1.center.x - c2.center.x)^2 + (c1.center.y - c2.center.y)^2)))^2 =
        (c1.center.x - c2.center.x)^2 * (4 * c1.r2 -
          ((c1.center.x - c2.center.x)^2 + (c1.center.y - c2.center.y)^2)) /
        (4 * ((c1.center.x - c2.center.x)^2 + (c1.center.y - c2.center.y)^2)) := by
      have hGpos : (0:ℝ) < 4 * c1.r2 -
          ((c1.center.x - c2.center.x)^2 + (c1.center.y - c2.center.y)^2) := by
        linarith
      rw [div_pow, mul_pow, sq_abs, mul_pow,
        Real.sq_sqrt hGpos.le, Real.sq_sqrt hD2pos.le]
      ring_nf
    set E := |c1.center.x - c2.center.x| *
        Real.sqrt (4 * c1.r2 -
          ((c1.center.x - c2.center.x)^2 + (c1.center.y - c2.center.y)^2)) /
        (2 * Real.sqrt ((c1.center.x - c2.center.x)^2 + (c1.center.y - c2.center.y)^2))
      with hEe
    have hEpos : 0 < E := by
      rw [hEe]
      have h1 : 0 < |c1.center.x - c2.center.x| := abs_pos.mpr hdx
      have hGpos : (0:ℝ) < 4 * c1.r2 -
          ((c1.center.x - c2.center.x)^2 + (c1.center.y - c2.center.y)^2) := by
        linarith
      have h2 : 0 < Real.sqrt (4 * c1.r2 -
          ((c1.center.x - c2.center.x)^2 + (c1.center.y - c2.center.y)^2)) :=
        Real.sqrt_pos.mpr hGpos
      have h3 : 0 < Real.sqrt ((c1.center.x - c2.center.x)^2 +
          (c1.center.y - c2.center.y)^2) := Real.sqrt_pos.mpr hD2pos
      positivity
    have hk1 := apex_sq c1.center.x c1.center.y c2.center.x c2.center.y c1.r2 E
      hdx hE2raw
    have hk2 := apex_sq c2.center.x c2.center.y c1.center.x c1.center.y c1.r2 (-E)
      hdxr
      (by rw [show (-E)^2 = E^2 by ring,
            show (c2.center.x - c1.center.x)^2 = (c1.center.x - c2.center.x)^2 by ring,
            show (c2.center.y - c1.center.y)^2 = (c1.center.y - c2.center.y)^2 by ring]
          exact hE2raw)
    have hk1b := apex_sq c1.center.x c1.center.y c2.center.x c2.center.y c1.r2 (-E)
      hdx (by rw [show (-E)^2 = E^2 by ring]; exact hE2raw)
    have hk2b := apex_sq c2.center.x c2.center.y c1.center.x c1.center.y c1.r2 E
      hdxr
      (by rw [show (c2.center.x - c1.center.x)^2 = (c1.center.x - c2.center.x)^2 by ring,
            show (c2.center.y - c1.center.y)^2 = (c1.center.y - c2.center.y)^2 by ring]
          exact hE2raw)
    rw [show c2.center.x - c1.center.x = -(c1.center.x - c2.center.x) from by ring,
      div_neg] at hk2 hk2b
    refine ⟨_, _, hEc, ?_, ?_, ?_, ?_, ?_⟩
    · intro h
      have hyv := congrArg Point.y h
      simp only at hyv
      rw [hy1, hy2] at hyv
      linarith
    · unfold onC
      simp only
      rw [hy1]
      linear_combination - hk1
    · unfold onC
      simp only
      rw [hy1, ← hr]
      linear_combination - hk2b
    · unfold onC
      simp only
      rw [hy2]
      linear_combination - hk1b
    · unfold onC
      simp only
      rw [hy2, ← hr]
      linear_combination - hk2

theorem line_inter_unique (l1 l2 : Line)
    (hd : l1.A * l2.B - l1.B * l2.A ≠ 0)
    (X : Point) (h1 : onL X l1) (h2 : onL X l2) :
    Line.get_intersection l1 l2 = some X := by
  obtain ⟨P, hP, hP1, hP2⟩ := get_intersection_spec l1 l2 hd
  have hXP : X = P := by
    unfold onL at h1 h2 hP1 hP2
    have hx : l1.A * (X.x - P.x) + l1.B * (X.y - P.y) = 0 := by linarith
    have hy : l2.A * (X.x - P.x) + l2.B * (X.y - P.y) = 0 := by linarith
    have e1 : (l1.A * l2.B - l1.B * l2.A) * (X.x - P.x) = 0 := by
      linear_combination l2.B * hx - l1.B * hy
    have e2 : (l1.A * l2.B - l1.B * l2.A) * (X.y - P.y) = 0 := by
      linear_combination l1.A * hy - l2.A * hx
    rcases mul_eq_zero.mp e1 with h | h
    · exact absurd h hd
    · rcases mul_eq_zero.mp e2 with h' | h'
      · exact absurd h' hd
      · exact Point.ext (by linarith) (by linarith)
  rw [hXP]
  exact hP

theorem dir_of_linear (a b : Point) (hab : a ≠ b) (al be ga : ℝ)
    (hab2 : ¬(al = 0 ∧ be = 0))
    (ha : al * a.x + be * a.y + ga = 0) (hb : al * b.x + be * b.y + ga = 0) :
    ∃ t : ℝ, t ≠ 0 ∧ b.x - a.x = -t * be ∧ b.y - a.y = t * al := by
  have hkey : al * (b.x - a.x) + be * (b.y - a.y) = 0 := by linarith
  rcases not_and_or.mp hab2 with h0 | h0
  · refine ⟨(b.y - a.y) / al, ?_, ?_, ?_⟩
    · intro h
      have hby : b.y - a.y = 0 := by
        field_simp at h
        exact h
      have hbx : b.x - a.x = 0 := by
        rcases mul_eq_zero.mp (by linarith [hkey, mul_eq_zero_of_right be hby] :
            al * (b.x - a.x) = 0) with h' | h'
        · exact absurd h' h0
        · exact h'
      exact hab (Point.ext (by linarith) (by linarith))
    · field_simp
      linear_combination hkey
    · field_simp
  · refine ⟨-(b.x - a.x) / be, ?_, ?_, ?_⟩
    · intro h
      have hbx : b.x - a.x = 0 := by
        field_simp at h
        linarith
      have hby : b.y - a.y = 0 := by
        rcases mul_eq_zero.mp (by linarith [hkey, mul_eq_zero_of_right al hbx] :
            be * (b.y - a.y) = 0) with h' | h'
        · exact absurd h' h0
        · exact h'
      exact hab (Point.ext (by linarith) (by linarith))
    · field_simp
    · field_simp
      linear_combination hkey

theorem dist_from_point_le (l : Line) (hl : l.p1 ≠ l.p2) (p X : Point)
    (hX : onL X l) : l.dist_from_point p ≤ Point.dist p X := by
  have hS := line_ABsq_pos' l hl
  have h2 := dist_from_point_sq l hl p
  have h3 := Point.dist_sq p X
  unfold onL at hX
  have hval : l.A * p.x + l.B * p.y + l.C =
      l.A * (p.x - X.x) + l.B * (p.y - X.y) := by linarith
  have hcauchy : (l.A * (p.x - X.x) + l.B * (p.y - X.y))^2 ≤
      (l.A^2 + l.B^2) * ((p.x - X.x)^2 + (p.y - X.y)^2) := by
    nlinarith [sq_nonneg (l.A * (p.y - X.y) - l.B * (p.x - X.x))]
  have h6 : (l.dist_from_point p)^2 * (l.A^2 + l.B^2) ≤
      (Point.dist p X)^2 * (l.A^2 + l.B^2) := by
    rw [h2, hval, h3]
    linarith [hcauchy]
  have h1 : (l.dist_from_point p)^2 ≤ (Point.dist p X)^2 :=
    le_of_mul_le_mul_right h6 hS
  have h4 := dist_from_point_nonneg l p
  have h5 := Point.dist_nonneg p X
  nlinarith

theorem foot_unique (l : Line) (hl : l.p1 ≠ l.p2) (p X Y : Point)
    (hX : onL X l) (hY : onL Y l)
    (hdX : Point.dist p X = l.dist_from_point p)
    (hdY : Point.dist p Y = l.dist_from_point p) : X = Y := by
  have hS := line_ABsq_pos' l hl
  have hfX : l.B * (p.x - X.x) - l.A * (p.y - X.y) = 0 := by
    have h2 := dist_from_point_sq l hl p
    have h3 := Point.dist_sq p X
    have hX' := hX
    unfold onL at hX'
    have hval : l.A * p.x + l.B * p.y + l.C =
        l.A * (p.x - X.x) + l.B * (p.y - X.y) := by linarith
    have hiden : (l.A^2 + l.B^2) * ((p.x - X.x)^2 + (p.y - X.y)^2) =
        (l.A * (p.x - X.x) + l.B * (p.y - X.y))^2 +
          (l.B * (p.x - X.x) - l.A * (p.y - X.y))^2 := by ring
    have h5 : (Point.dist p X)^2 * (l.A^2 + l.B^2) =
        (l.dist_from_point p)^2 * (l.A^2 + l.B^2) := by rw [hdX]
    rw [h2, h3, hval] at h5
    have hz : (l.B * (p.x - X.x) - l.A * (p.y - X.y))^2 = 0 := by
      linarith [hiden, h5]
    exact sq_eq_zero_iff.mp hz
  have hfY : l.B * (p.x - Y.x) - l.A * (p.y - Y.y) = 0 := by
    have h2 := dist_from_point_sq l hl p
    have h3 := Point.dist_sq p Y
    have hY' := hY
    unfold onL at hY'
    have hval : l.A * p.x + l.B * p.y + l.C =
        l.A * (p.x - Y.x) + l.B * (p.y - Y.y) := by linarith
    have hiden : (l.A^2 + l.B^2) * ((p.x - Y.x)^2 + (p.y - Y.y)^2) =
        (l.A * (p.x - Y.x) + l.B * (p.y - Y.y))^2 +
          (l.B * (p.x - Y.x) - l.A * (p.y - Y.y))^2 := by ring
    have h5 : (Point.dist p Y)^2 * (l.A^2 + l.B^2) =
        (l.dist_from_point p)^2 * (l.A^2 + l.B^2) := by rw [hdY]
    rw [h2, h3, hval] at h5
    have hz : (l.B * (p.x - Y.x) - l.A * (p.y - Y.y))^2 = 0 := by
      linarith [hiden, h5]
    exact sq_eq_zero_iff.mp hz
  unfold onL at hX hY
  have e1 : l.A * (X.x - Y.x) + l.B * (X.y - Y.y) = 0 := by linarith
  have e2 : l.B * (X.x - Y.x) - l.A * (X.y - Y.y) = 0 := by linarith
  have k1 : (l.A^2 + l.B^2) * (X.x - Y.x) = 0 := by
    linear_combination l.A * e1 + l.B * e2
  have k2 : (l.A^2 + l.B^2) * (X.y - Y.y) = 0 := by
    linear_combination l.B * e1 - l.A * e2
  rcases mul_eq_zero.mp k1 with h | h
  · exact absurd h (ne_of_gt hS)
  · rcases mul_eq_zero.mp k2 with h' | h'
    · exact absurd h' (ne_of_gt hS)
    · exact Point.ext (by linarith) (by linarith)

theorem onC_dist (P : Point) (c : Circle) (h : onC P c) :
    Point.dist P c.center = c.radius := by
  unfold onC at h
  rw [radius_eq_sqrt_r2]
  unfold Point.dist
  rw [h]

theorem dist_comm' (p q : Point) : Point.dist p q = Point.dist q p := by
  unfold Point.dist
  congr 1
  ring

theorem seg_r2_symm (p1 p2 : Point) :
    Circle.r2 ⟨p1, p2⟩ = Circle.r2 ⟨p2, p1⟩ := by
  unfold Circle.r2
  ring

theorem seg_hD4 (p1 p2 : Point) (hne : p1 ≠ p2) :
    ((⟨p1, p2⟩ : Circle).center.x - (⟨p2, p1⟩ : Circle).center.x)^2 +
      ((⟨p1, p2⟩ : Circle).center.y - (⟨p2, p1⟩ : Circle).center.y)^2 <
      4 * (⟨p1, p2⟩ : Circle).r2 := by
  have h := centers_D2_pos ⟨p1, p2⟩ ⟨p2, p1⟩ hne
  unfold Circle.r2
  simp only at h ⊢
  nlinarith

theorem bisector_of_cc (p1 p2 P1 P2 : Point)
    (h : Circle.get_intersection ⟨p1, p2⟩ ⟨p2, p1⟩ = some [P1, P2]) :
    get_perpendicular_bisector ⟨p1, p2⟩ = some ⟨P1, P2⟩ := by
  unfold get_perpendicular_bisector Circle.intersect
  simp only
  rw [h]
  rfl

theorem bisector_char (p1 p2 : Point) (hne : p1 ≠ p2) :
    ∃ lb : Line, get_perpendicular_bisector ⟨p1, p2⟩ = some lb ∧
      lb.p1 ≠ lb.p2 ∧
      ∀ X : Point, onL X lb ↔
        2*(p2.x - p1.x) * X.x + 2*(p2.y - p1.y) * X.y +
          (p1.x^2 + p1.y^2 - p2.x^2 - p2.y^2) = 0 := by
  obtain ⟨A1, A2, hEc, hA12, m11, m12, m21, m22⟩ :=
    circleCircle_char ⟨p1, p2⟩ ⟨p2, p1⟩ (seg_r2_symm p1 p2) hne (seg_hD4 p1 p2 hne)
  refine ⟨⟨A1, A2⟩, bisector_of_cc p1 p2 A1 A2 hEc, hA12, ?_⟩
  have hab2 : ¬(2*(p2.x - p1.x) = 0 ∧ 2*(p2.y - p1.y) = 0) := by
    rintro ⟨h1, h2⟩
    exact hne (Point.ext (by linarith) (by linarith))
  unfold onC Circle.r2 at m11 m12 m21 m22
  simp only at m11 m12 m21 m22
  exact onL_iff_of_linear A1 A2 hA12 _ _ _ hab2
    (by linear_combination m11 - m12) (by linear_combination m21 - m22)

theorem bisector_horiz (x1 x2 h : ℝ) (hne : x1 ≠ x2) :
    get_perpendicular_bisector ⟨⟨x1, h⟩, ⟨x2, h⟩⟩ =
      some ⟨⟨(x1+x2)/2, h + Real.sqrt 3 * |x1 - x2| / 2⟩,
            ⟨(x1+x2)/2, h - Real.sqrt 3 * |x1 - x2| / 2⟩⟩ := by
  have hnep : (⟨x1, h⟩ : Point) ≠ ⟨x2, h⟩ := by
    intro hq
    exact hne (congrArg Point.x hq)
  have hr := seg_r2_symm ⟨x1, h⟩ ⟨x2, h⟩
  have hD4 := seg_hD4 ⟨x1, h⟩ ⟨x2, h⟩ hnep
  have hdx : (⟨⟨x1, h⟩, ⟨x2, h⟩⟩ : Circle).center.x -
      (⟨⟨x2, h⟩, ⟨x1, h⟩⟩ : Circle).center.x ≠ 0 := sub_ne_zero.mpr hne
  have hgen := circleCircle_general ⟨⟨x1, h⟩, ⟨x2, h⟩⟩ ⟨⟨x2, h⟩, ⟨x1, h⟩⟩
    hr hnep hdx hD4
  have hy1 := ccY1_eq ⟨⟨x1, h⟩, ⟨x2, h⟩⟩ ⟨⟨x2, h⟩, ⟨x1, h⟩⟩ hr hnep hD4
  have hy2 := ccY2_eq ⟨⟨x1, h⟩, ⟨x2, h⟩⟩ ⟨⟨x2, h⟩, ⟨x1, h⟩⟩ hr hnep hD4
  simp only at hgen hy1 hy2
  have habs : (0:ℝ) < |x1 - x2| := abs_pos.mpr (sub_ne_zero.mpr hne)
  have hr2v : (⟨⟨x1, h⟩, ⟨x2, h⟩⟩ : Circle).r2 = (x1 - x2)^2 := by
    unfold Circle.r2
    simp only
    ring
  have hEsimp : |x1 - x2| * Real.sqrt (4 * (⟨⟨x1, h⟩, ⟨x2, h⟩⟩ : Circle).r2 -
      ((x1 - x2)^2 + (h - h)^2)) / (2 * Real.sqrt ((x1 - x2)^2 + (h - h)^2)) =
      Real.sqrt 3 * |x1 - x2| / 2 := by
    rw [hr2v]
    rw [show 4 * (x1 - x2)^2 - ((x1 - x2)^2 + (h - h)^2) = 3 * (x1 - x2)^2 by ring,
      show (x1 - x2)^2 + (h - h)^2 = (x1 - x2)^2 by ring]
    rw [Real.sqrt_mul (by norm_num), Real.sqrt_sq_eq_abs]
    field_simp
    ring
  rw [hEsimp] at hy1 hy2
  rw [bisector_of_cc _ _ _ _ hgen]
  refine congrArg some (congrArg₂ Line.mk (Point.ext ?_ ?_) (Point.ext ?_ ?_))
  · simp
  · simp only
    rw [hy1]
    ring
  · simp
  · simp only
    rw [hy2]
    ring

theorem bisector_vert (y1 y2 k : ℝ) (hne : y1 ≠ y2) :
    get_perpendicular_bisector ⟨⟨k, y1⟩, ⟨k, y2⟩⟩ =
      some ⟨⟨k + Real.sqrt 3 * |y1 - y2| / 2, (y1+y2)/2⟩,
            ⟨k - Real.sqrt 3 * |y1 - y2| / 2, (y1+y2)/2⟩⟩ := by
  have hnep : (⟨k, y1⟩ : Point) ≠ ⟨k, y2⟩ := by
    intro hq
    exact hne (congrArg Point.y hq)
  have hr := seg_r2_symm ⟨k, y1⟩ ⟨k, y2⟩
  have hD4 := seg_hD4 ⟨k, y1⟩ ⟨k, y2⟩ hnep
  have hvert := circleCircle_vertical ⟨⟨k, y1⟩, ⟨k, y2⟩⟩ ⟨⟨k, y2⟩, ⟨k, y1⟩⟩
    hr hnep rfl hD4
  simp only at hvert
  have hr2v : (⟨⟨k, y1⟩, ⟨k, y2⟩⟩ : Circle).r2 = (y1 - y2)^2 := by
    unfold Circle.r2
    simp only
    ring
  have hts : Real.sqrt ((⟨⟨k, y1⟩, ⟨k, y2⟩⟩ : Circle).r2 - ((y1 - y2)/2)^2) =
      Real.sqrt 3 * |y1 - y2| / 2 := by
    rw [hr2v]
    rw [show (y1 - y2)^2 - ((y1 - y2)/2)^2 = 3 * ((y1 - y2)/2)^2 by ring]
    rw [Real.sqrt_mul (by norm_num), Real.sqrt_sq_eq_abs, abs_div]
    rw [show |(2:ℝ)| = 2 from abs_of_pos (by norm_num)]
    ring
  rw [hts] at hvert
  rw [bisector_of_cc _ _ _ _ hvert]

theorem radius_eq_dist (c : Circle) :
    c.radius = Point.dist c.center c.other_point := rfl

theorem optBind_some {α β : Type} (a : α) (f : α → Option β) :
    (do let x ← some a; f x) = f a := rfl

theorem perp_chord (p : Point) (l : Line) (hl : l.p1 ≠ l.p2)
    (hoff : l.dist_from_point p > 0) :
    ∃ q1 q2 : Point,
      (if (Circle.intersect_with_line ⟨p, l.p1⟩ l).length < 2 then
          Circle.intersect_with_line ⟨p, l.p2⟩ l
        else Circle.intersect_with_line ⟨p, l.p1⟩ l) = [q1, q2] ∧
      onL q1 l ∧ onL q2 l ∧ q1 ≠ q2 ∧
      (q1.x - p.x)^2 + (q1.y - p.y)^2 = (q2.x - p.x)^2 + (q2.y - p.y)^2 ∧
      0 < (q1.x - p.x)^2 + (q1.y - p.y)^2 := by
  have hple : l.dist_from_point p ≤ Point.dist p l.p1 :=
    dist_from_point_le l hl p l.p1 (onL_p1 l)
  have hnp1 : p ≠ l.p1 := by
    intro h
    rw [h] at hoff hple
    rw [Point.dist_eq_zero_iff l.p1 l.p1 |>.mpr rfl] at hple
    linarith
  by_cases hcase : l.dist_from_point p < Point.dist p l.p1
  · have hrad : (⟨p, l.p1⟩ : Circle).radius = Point.dist p l.p1 := radius_eq_dist _
    obtain ⟨P, Q, heq, hPQ, hPl, hPc, hQl, hQc, _⟩ :=
      circleLine_char ⟨p, l.p1⟩ l hl (by rw [hrad]; exact hcase)
    have hlen : ¬ (Circle.intersect_with_line ⟨p, l.p1⟩ l).length < 2 := by
      rw [heq]
      norm_num
    refine ⟨P, Q, by rw [if_neg hlen, heq], hPl, hQl, hPQ, ?_, ?_⟩
    · unfold onC Circle.r2 at hPc hQc
      simp only at hPc hQc
      rw [hPc, hQc]
    · unfold onC Circle.r2 at hPc
      simp only at hPc
      rw [hPc]
      have hd := Point.dist_pos p l.p1 hnp1
      have hds := Point.dist_sq p l.p1
      nlinarith
  · have hfoot1 : Point.dist p l.p1 = l.dist_from_point p := by
      have := dist_comm' p l.p1
      linarith [hple, hcase, le_of_not_lt hcase]
    have hnp2 : p ≠ l.p2 := by
      intro h
      rw [h] at hoff
      have hple2 : l.dist_from_point p ≤ Point.dist p l.p2 :=
        dist_from_point_le l hl p l.p2 (onL_p2 l)
      rw [h, Point.dist_eq_zero_iff l.p2 l.p2 |>.mpr rfl] at hple2
      linarith
    have hcase2 : l.dist_from_point p < Point.dist p l.p2 := by
      rcases lt_or_eq_of_le (dist_from_point_le l hl p l.p2 (onL_p2 l)) with h | h
      · exact h
      · exfalso
        exact hl (foot_unique l hl p l.p1 l.p2 (onL_p1 l) (onL_p2 l)
          hfoot1 h.symm)
    have hrad1 : (⟨p, l.p1⟩ : Circle).radius = Point.dist p l.p1 := radius_eq_dist _
    have htan : l.dist_from_point (⟨p, l.p1⟩ : Circle).center =
        (⟨p, l.p1⟩ : Circle).radius := by
      simp only [hrad1]
      exact hfoot1.symm
    have hlen : (Circle.intersect_with_line ⟨p, l.p1⟩ l).length < 2 := by
      have := circleLine_tangent_len ⟨p, l.p1⟩ l htan
      omega
    have hrad2 : (⟨p, l.p2⟩ : Circle).radius = Point.dist p l.p2 := radius_eq_dist _
    obtain ⟨P, Q, heq, hPQ, hPl, hPc, hQl, hQc, _⟩ :=
      circleLine_char ⟨p, l.p2⟩ l hl (by rw [hrad2]; exact hcase2)
    refine ⟨P, Q, by rw [if_pos hlen, heq], hPl, hQl, hPQ, ?_, ?_⟩
    · unfold onC Circle.r2 at hPc hQc
      simp only at hPc hQc
      rw [hPc, hQc]
    · unfold onC Circle.r2 at hPc
      simp only at hPc
      rw [hPc]
      have hd := Point.dist_pos p l.p2 hnp2
      have hds := Point.dist_sq p l.p2
      nlinarith

theorem perp_char (p : Point) (l : Line) (hl : l.p1 ≠ l.p2)
    (hoff : l.dist_from_point p > 0) :
    ∃ lp : Line, get_perpendicular_to_line_through_point p l = some lp ∧
      lp.p1 ≠ lp.p2 ∧
      ∀ X : Point, onL X lp ↔
        (X.x - p.x) * (l.p2.x - l.p1.x) + (X.y - p.y) * (l.p2.y - l.p1.y) = 0 := by
  obtain ⟨q1, q2, hIF, hq1l, hq2l, hne12, hrr, hrpos⟩ := perp_chord p l hl hoff
  have hr : Circle.r2 ⟨q1, p⟩ = Circle.r2 ⟨q2, p⟩ := by
    unfold Circle.r2
    simp only
    exact hrr
  have hD4 : ((⟨q1, p⟩ : Circle).center.x - (⟨q2, p⟩ : Circle).center.x)^2 +
      ((⟨q1, p⟩ : Circle).center.y - (⟨q2, p⟩ : Circle).center.y)^2 <
      4 * (⟨q1, p⟩ : Circle).r2 := by
    unfold Circle.r2
    simp only
    by_contra hcon
    push_neg at hcon
    have hz : (q1.x - p.x + (q2.x - p.x))^2 + (q1.y - p.y + (q2.y - p.y))^2 ≤ 0 := by
      nlinarith [hrr]
    have hx0 : q1.x - p.x + (q2.x - p.x) = 0 := by
      nlinarith [sq_nonneg (q1.x - p.x + (q2.x - p.x)),
        sq_nonneg (q1.y - p.y + (q2.y - p.y))]
    have hy0 : q1.y - p.y + (q2.y - p.y) = 0 := by
      nlinarith [sq_nonneg (q1.x - p.x + (q2.x - p.x)),
        sq_nonneg (q1.y - p.y + (q2.y - p.y))]
    have hponl : onL p l := by
      unfold onL at hq1l hq2l ⊢
      linear_combination (1/2) * hq1l + (1/2) * hq2l - (l.A/2) * hx0 - (l.B/2) * hy0
    rw [← dist_from_point_eq_zero_iff l hl p] at hponl
    linarith
  obtain ⟨A1, A2, hEcc, hA12, m11, m12, m21, m22⟩ :=
    circleCircle_char ⟨q1, p⟩ ⟨q2, p⟩ hr hne12 hD4
  have hresult : get_perpendicular_to_line_through_point p l = some ⟨A1, A2⟩ := by
    unfold get_perpendicular_to_line_through_point Circle.intersect
    rw [if_pos hoff]
    simp only
    rw [hIF]
    simp only [unpack2]
    rw [optBind_some]
    simp only
    rw [hEcc, optBind_some]
    rfl
  unfold onC Circle.r2 at m11 m12 m21 m22
  simp only at m11 m12 m21 m22
  have hp0 : 2*(q2.x - q1.x) * p.x + 2*(q2.y - q1.y) * p.y +
      (q1.x^2 + q1.y^2 - q2.x^2 - q2.y^2) = 0 := by
    linear_combination hrr
  have hab2 : ¬(2*(q2.x - q1.x) = 0 ∧ 2*(q2.y - q1.y) = 0) := by
    rintro ⟨h1, h2⟩
    exact hne12 (Point.ext (by linarith) (by linarith))
  have hchar := onL_iff_of_linear A1 A2 hA12
    (2*(q2.x - q1.x)) (2*(q2.y - q1.y)) (q1.x^2 + q1.y^2 - q2.x^2 - q2.y^2) hab2
    (by linear_combination m11 - m12 + hp0) (by linear_combination m21 - m22 + hp0)
  obtain ⟨t, ht0, htx, hty⟩ := dir_of_linear q1 q2 hne12 l.A l.B l.C
    (by
      intro hAB
      have := line_AB_ne l.p1 l.p2 hl
      unfold Line.A Line.B at hAB
      exact this ⟨hAB.1, hAB.2⟩)
    hq1l hq2l
  have hAval : l.A = l.p1.y - l.p2.y := rfl
  have hBval : l.B = l.p2.x - l.p1.x := rfl
  refine ⟨⟨A1, A2⟩, hresult, hA12, ?_⟩
  intro X
  rw [hchar X]
  have hiden : 2*(q2.x - q1.x) * X.x + 2*(q2.y - q1.y) * X.y +
      (q1.x^2 + q1.y^2 - q2.x^2 - q2.y^2) =
      (-2*t) * ((X.x - p.x) * (l.p2.x - l.p1.x) + (X.y - p.y) * (l.p2.y - l.p1.y)) := by
    rw [hBval] at htx
    rw [hAval] at hty
    linear_combination hp0 + (2 * X.x - 2 * p.x) * htx + (2 * X.y - 2 * p.y) * hty
  rw [hiden]
  constructor
  · intro h
    rcases mul_eq_zero.mp h with h' | h'
    · exfalso
      have : t = 0 := by linarith
      exact ht0 this
    · exact h'
  · intro h
    rw [h, mul_zero]

theorem parallel_char (p : Point) (l : Line) (hl : l.p1 ≠ l.p2)
    (hoff : l.dist_from_point p > 0) :
    ∃ lq : Line, get_parallel_to_line_through_point p l = some lq ∧
      lq.p1 ≠ lq.p2 ∧
      ∀ X : Point, onL X lq ↔
        (X.y - p.y) * (l.p2.x - l.p1.x) - (X.x - p.x) * (l.p2.y - l.p1.y) = 0 := by
  obtain ⟨lp, hlp_eq, hlpne, hlpchar⟩ := perp_char p l hl hoff
  have hS := line_ABsq_pos' l hl
  have hval_ne : l.A * p.x + l.B * p.y + l.C ≠ 0 := by
    intro h
    unfold Line.dist_from_point at hoff
    rw [h] at hoff
    simp at hoff
  have hAval : l.A = l.p1.y - l.p2.y := rfl
  have hBval : l.B = l.p2.x - l.p1.x := rfl
  set k := (l.A * p.x + l.B * p.y + l.C) / (l.A^2 + l.B^2) with hk
  have hk_ne : k ≠ 0 := by
    rw [hk]
    exact div_ne_zero hval_ne (ne_of_gt hS)
  have hFl : onL (⟨p.x - k * l.A, p.y - k * l.B⟩ : Point) l := by
    unfold onL
    simp only
    rw [hk]
    field_simp
    ring
  have hFlp : onL (⟨p.x - k * l.A, p.y - k * l.B⟩ : Point) lp := by
    rw [hlpchar]
    simp only
    rw [hAval, hBval]
    ring
  have hponlp : onL p lp := by
    rw [hlpchar]
    ring
  obtain ⟨s, hs0, hsx, hsy⟩ := dir_of_linear lp.p1 lp.p2 hlpne
    (l.p2.x - l.p1.x) (l.p2.y - l.p1.y)
    (-((l.p2.x - l.p1.x) * p.x + (l.p2.y - l.p1.y) * p.y))
    (by
      intro hAB
      apply line_AB_ne l.p1 l.p2 hl
      constructor
      · rw [hAval]
        linarith [hAB.2]
      · rw [hBval]
        linarith [hAB.1])
    (by have := (hlpchar lp.p1).mp (onL_p1 lp); linarith)
    (by have := (hlpchar lp.p2).mp (onL_p2 lp); linarith)
  have hd_ne : l.A * lp.B - l.B * lp.A ≠ 0 := by
    have hlpB : lp.B = -s * (l.p2.y - l.p1.y) := by
      rw [show lp.B = lp.p2.x - lp.p1.x from rfl, hsx]
    have hlpA : lp.A = -(s * (l.p2.x - l.p1.x)) := by
      rw [show lp.A = lp.p1.y - lp.p2.y from rfl]
      linarith [hsy]
    rw [hlpB, hlpA, hAval, hBval]
    intro h
    have h2 : s * ((l.p2.x - l.p1.x)^2 + (l.p2.y - l.p1.y)^2) = 0 := by
      linear_combination h
    rcases mul_eq_zero.mp h2 with h3 | h3
    · exact hs0 h3
    · rw [hAval, hBval] at hS
      linarith
  have hinter : Line.intersect l lp =
      some ⟨p.x - k * l.A, p.y - k * l.B⟩ := by
    unfold Line.intersect
    exact line_inter_unique l lp hd_ne _ hFl hFlp
  have hpF : p ≠ (⟨p.x - k * l.A, p.y - k * l.B⟩ : Point) := by
    intro h
    have hx := congrArg Point.x h
    have hy := congrArg Point.y h
    simp only at hx hy
    have hkA : k * l.A = 0 := by linarith
    have hkB : k * l.B = 0 := by linarith
    have : k * (l.A^2 + l.B^2) = 0 := by
      linear_combination l.A * hkA + l.B * hkB
    rcases mul_eq_zero.mp this with h3 | h3
    · exact hk_ne h3
    · linarith
  have hd0 : lp.dist_from_point p = 0 :=
    (dist_from_point_eq_zero_iff lp hlpne p).mpr hponlp
  have hdlt : lp.dist_from_point (⟨p, ⟨p.x - k * l.A, p.y - k * l.B⟩⟩ : Circle).center <
      (⟨p, ⟨p.x - k * l.A, p.y - k * l.B⟩⟩ : Circle).radius := by
    have hrpos : 0 < (⟨p, ⟨p.x - k * l.A, p.y - k * l.B⟩⟩ : Circle).radius := by
      rw [radius_eq_dist]
      exact Point.dist_pos _ _ hpF
    simp only
    rw [hd0]
    exact hrpos
  obtain ⟨P, Q, hchord, hPQ, hPlp, hPc, hQlp, hQc, _⟩ :=
    circleLine_char ⟨p, ⟨p.x - k * l.A, p.y - k * l.B⟩⟩ lp hlpne hdlt
  have e1 : (P.x - p.x) * (l.p2.x - l.p1.x) + (P.y - p.y) * (l.p2.y - l.p1.y) = 0 :=
    (hlpchar P).mp hPlp
  have e2 : (Q.x - p.x) * (l.p2.x - l.p1.x) + (Q.y - p.y) * (l.p2.y - l.p1.y) = 0 :=
    (hlpchar Q).mp hQlp
  have e3 : (P.x - p.x)^2 + (P.y - p.y)^2 = (Q.x - p.x)^2 + (Q.y - p.y)^2 := by
    unfold onC Circle.r2 at hPc hQc
    simp only at hPc hQc
    rw [hPc, hQc]
  have hm : P.x + Q.x - 2 * p.x = 0 ∧ P.y + Q.y - 2 * p.y = 0 := by
    have f1 : (l.p2.x - l.p1.x) * (P.x + Q.x - 2*p.x) +
        (l.p2.y - l.p1.y) * (P.y + Q.y - 2*p.y) = 0 := by
      linear_combination e1 + e2
    have f2 : (P.x - Q.x) * (P.x + Q.x - 2*p.x) +
        (P.y - Q.y) * (P.y + Q.y - 2*p.y) = 0 := by
      linear_combination e3
    have fv : (l.p2.x - l.p1.x) * (P.x - Q.x) +
        (l.p2.y - l.p1.y) * (P.y - Q.y) = 0 := by
      linear_combination e1 - e2
    have hdet2 : ((l.p2.x - l.p1.x) * (P.y - Q.y) -
        (l.p2.y - l.p1.y) * (P.x - Q.x))^2 =
        ((l.p2.x - l.p1.x)^2 + (l.p2.y - l.p1.y)^2) *
          ((P.x - Q.x)^2 + (P.y - Q.y)^2) := by
      linear_combination (-((l.p2.x - l.p1.x) * (P.x - Q.x) +
        (l.p2.y - l.p1.y) * (P.y - Q.y))) * fv
    have hPQ2 : 0 < (P.x - Q.x)^2 + (P.y - Q.y)^2 := by
      rcases Point.ext_iff.not.mp hPQ |> not_and_or.mp with h | h
      · have : P.x - Q.x ≠ 0 := sub_ne_zero.mpr h
        positivity
      · have : P.y - Q.y ≠ 0 := sub_ne_zero.mpr h
        positivity
    have hSv : 0 < (l.p2.x - l.p1.x)^2 + (l.p2.y - l.p1.y)^2 := by
      rw [hAval, hBval] at hS
      linarith
    have hdet_ne : (l.p2.x - l.p1.x) * (P.y - Q.y) -
        (l.p2.y - l.p1.y) * (P.x - Q.x) ≠ 0 := by
      intro h
      rw [h] at hdet2
      have := mul_pos hSv hPQ2
      simp at hdet2
      nlinarith
    have k1 : ((l.p2.x - l.p1.x) * (P.y - Q.y) -
        (l.p2.y - l.p1.y) * (P.x - Q.x)) * (P.x + Q.x - 2*p.x) = 0 := by
      linear_combination (P.y - Q.y) * f1 - (l.p2.y - l.p1.y) * f2
    have k2 : ((l.p2.x - l.p1.x) * (P.y - Q.y) -
        (l.p2.y - l.p1.y) * (P.x - Q.x)) * (P.y + Q.y - 2*p.y) = 0 := by
      linear_combination (l.p2.x - l.p1.x) * f2 - (P.x - Q.x) * f1
    constructor
    · rcases mul_eq_zero.mp k1 with h | h
      · exact absurd h hdet_ne
      · exact h
    · rcases mul_eq_zero.mp k2 with h | h
      · exact absurd h hdet_ne
      · exact h
  obtain ⟨lb, hlb_eq, hlbne, hlbchar⟩ := bisector_char P Q hPQ
  have hresult : get_parallel_to_line_through_point p l = some lb := by
    unfold get_parallel_to_line_through_point
    rw [hlp_eq, optBind_some]
    simp only
    rw [hinter, optBind_some]
    rw [hchord]
    simp only [unpack2]
    rw [optBind_some]
    simp only
    exact hlb_eq
  obtain ⟨u, hu0, hux, huy⟩ := dir_of_linear P Q hPQ
    (l.p2.x - l.p1.x) (l.p2.y - l.p1.y)
    (-((l.p2.x - l.p1.x) * p.x + (l.p2.y - l.p1.y) * p.y))
    (by
      intro hAB
      apply line_AB_ne l.p1 l.p2 hl
      constructor
      · rw [hAval]
        linarith [hAB.2]
      · rw [hBval]
        linarith [hAB.1])
    (by linarith [e1]) (by linarith [e2])
  refine ⟨lb, hresult, hlbne, ?_⟩
  intro X
  rw [hlbchar X]
  have hiden : 2*(Q.x - P.x) * X.x + 2*(Q.y - P.y) * X.y +
      (P.x^2 + P.y^2 - Q.x^2 - Q.y^2) =
      (2*u) * ((X.y - p.y) * (l.p2.x - l.p1.x) - (X.x - p.x) * (l.p2.y - l.p1.y)) := by
    linear_combination (2 * X.x - 2 * p.x) * hux + (2 * X.y - 2 * p.y) * huy +
      (P.x - Q.x) * hm.1 + (P.y - Q.y) * hm.2
  rw [hiden]
  constructor
  · intro h
    rcases mul_eq_zero.mp h with h' | h'
    · exfalso
      have : u = 0 := by linarith
      exact hu0 this
    · exact h'
  · intro h
    rw [h, mul_zero]

theorem dist_xpts (a b y : ℝ) : Point.dist ⟨a, y⟩ ⟨b, y⟩ = |a - b| := by
  unfold Point.dist
  simp only
  rw [show (a - b)^2 + (y - y)^2 = (a - b)^2 by ring, Real.sqrt_sq_eq_abs]

theorem dist_ypts (x a b : ℝ) : Point.dist ⟨x, a⟩ ⟨x, b⟩ = |a - b| := by
  unfold Point.dist
  simp only
  rw [show (x - x)^2 + (a - b)^2 = (a - b)^2 by ring, Real.sqrt_sq_eq_abs]

theorem xpt_eq_origin (x : ℝ) : (⟨x, 0⟩ : Point) = originP ↔ x = 0 := by
  constructor
  · intro h
    exact congrArg Point.x h
  · intro h
    rw [h]
    rfl

theorem circle_y0_line (c : Circle) (l : Line) (hA : l.A = 0) (hC : l.C = 0)
    (hB : l.B ≠ 0) (hcy : c.center.y = 0) (hr : 0 < c.radius) :
    c.intersect_with_line l =
      [⟨c.center.x + c.radius, 0⟩, ⟨c.center.x - c.radius, 0⟩] := by
  have hy0 : -l.C/l.B = 0 := by
    rw [hC]
    simp
  have hd : l.dist_from_point c.center < c.radius := by
    unfold Line.dist_from_point
    rw [hA, hC, hcy]
    simpa using hr
  have heq := circleLine_A0_eq c l hA hd
  rw [hy0] at heq
  rw [heq]
  have hxs : Real.sqrt (c.radius^2 - (0 - c.center.y)^2) = c.radius := by
    rw [hcy, show c.radius^2 - (0 - 0)^2 = c.radius^2 by ring, Real.sqrt_sq hr.le]
  rw [hxs]

theorem seg_line_A (a b : Point) (h : a.y = b.y) : (⟨a, b⟩ : Line).A = 0 := by
  unfold Line.A
  simp only
  rw [h, sub_self]

theorem seg_line_C0 (p : Point) (x : ℝ) (hp : p.y = 0) :
    (⟨p, ⟨x, 0⟩⟩ : Line).C = 0 := by
  unfold Line.C
  simp only
  rw [hp]
  ring

theorem mirror_x_eval (x : ℝ) :
    mirror_point_on_x_axis ⟨x, 0⟩ originP = some ⟨-x, 0⟩ := by
  by_cases hx : x = 0
  · subst hx
    unfold mirror_point_on_x_axis
    rw [if_pos ((xpt_eq_origin 0).mpr rfl)]
    norm_num
    rfl
  · unfold mirror_point_on_x_axis
    rw [if_neg (fun h => hx ((xpt_eq_origin x).mp h))]
    have hrad : (⟨originP, ⟨x, 0⟩⟩ : Circle).radius = |x| := by
      rw [radius_eq_dist]
      show Point.dist ⟨0, 0⟩ ⟨x, 0⟩ = |x|
      rw [dist_xpts]
      rw [show (0:ℝ) - x = -x by ring, abs_neg]
    have hchord := circle_y0_line ⟨originP, ⟨x, 0⟩⟩ ⟨originP, ⟨x, 0⟩⟩
      (seg_line_A originP ⟨x, 0⟩ rfl) (seg_line_C0 originP x rfl)
      (by
        show (⟨x, 0⟩ : Point).x - originP.x ≠ 0
        simp only [originP]
        simpa using hx)
      rfl (by rw [hrad]; exact abs_pos.mpr hx)
    simp only
    rw [hchord]
    simp only [unpack2]
    rw [optBind_some]
    simp only
    rw [hrad]
    rcases lt_or_gt_of_ne hx with hneg | hpos
    · rw [abs_of_neg hneg]
      rw [if_pos (by
        show (⟨(⟨originP, ⟨x, 0⟩⟩ : Circle).center.x - - x, 0⟩ : Point) = ⟨x, 0⟩
        show (⟨0 - - x, 0⟩ : Point) = ⟨x, 0⟩
        refine Point.ext ?_ rfl
        show 0 - - x = x
        ring)]
      refine congrArg some (Point.ext ?_ rfl)
      show (0:ℝ) + - x = - x
      ring
    · rw [abs_of_pos hpos]
      rw [if_neg (by
        intro h
        have hxx := congrArg Point.x h
        simp only at hxx
        have : (0:ℝ) - x = x := hxx
        linarith)]
      refine congrArg some (Point.ext ?_ rfl)
      show (0:ℝ) - x = - x
      ring

theorem casnumNeg_eval (x : ℝ) : casnumNeg ⟨x, 0⟩ = some ⟨-x, 0⟩ :=
  mirror_x_eval x

theorem double_x_eval (x : ℝ) :
    double_point_on_x_axis originP ⟨x, 0⟩ = some ⟨2*x, 0⟩ := by
  by_cases hx : x = 0
  · subst hx
    unfold double_point_on_x_axis
    rw [if_pos ((xpt_eq_origin 0).mpr rfl)]
    norm_num
    rfl
  · unfold double_point_on_x_axis
    rw [if_neg (fun h => hx ((xpt_eq_origin x).mp h))]
    have hrad : (⟨⟨x, 0⟩, originP⟩ : Circle).radius = |x| := by
      rw [radius_eq_dist]
      show Point.dist ⟨x, 0⟩ ⟨0, 0⟩ = |x|
      rw [dist_xpts]
      norm_num
    have hchord := circle_y0_line ⟨⟨x, 0⟩, originP⟩ ⟨originP, ⟨x, 0⟩⟩
      (seg_line_A originP ⟨x, 0⟩ rfl) (seg_line_C0 originP x rfl)
      (by
        show (⟨x, 0⟩ : Point).x - originP.x ≠ 0
        simp only [originP]
        simpa using hx)
      rfl (by rw [hrad]; exact abs_pos.mpr hx)
    simp only
    rw [hchord]
    simp only [unpack2]
    rw [optBind_some]
    simp only
    rw [hrad]
    rcases lt_or_gt_of_ne hx with hneg | hpos
    · rw [abs_of_neg hneg]
      rw [if_neg (by
        intro h
        have hxx := congrArg Point.x h
        simp only at hxx
        have : x - - x = 0 := hxx
        linarith)]
      refine congrArg some (Point.ext ?_ rfl)
      show x - - x = 2 * x
      ring
    · rw [abs_of_pos hpos]
      rw [if_pos (by
        refine Point.ext ?_ rfl
        show x - x = (0:ℝ)
        ring)]
      refine congrArg some (Point.ext ?_ rfl)
      show x + x = 2 * x
      ring

theorem casnumMul2_eval (x : ℝ) : casnumMul2 ⟨x, 0⟩ = some ⟨2*x, 0⟩ :=
  double_x_eval x

theorem xaxis_A : x_axis.A = 0 := by
  unfold x_axis Line.A originP unitP
  norm_num

theorem xaxis_B : x_axis.B = 1 := by
  unfold x_axis Line.B originP unitP
  norm_num

theorem xaxis_C : x_axis.C = 0 := by
  unfold x_axis Line.C originP unitP
  norm_num

theorem dist_origin_x (b : ℝ) : Point.dist originP ⟨b, 0⟩ = |b| := by
  show Point.dist ⟨0, 0⟩ ⟨b, 0⟩ = |b|
  rw [dist_xpts, zero_sub, abs_neg]

theorem get_circle_chord (a r : ℝ) (hr : 0 < r) :
    (Circle.get_circle ⟨a, 0⟩ r).intersect_with_line x_axis =
      [⟨a + r, 0⟩, ⟨a - r, 0⟩] := by
  have hrad : (Circle.get_circle ⟨a, 0⟩ r).radius = r := by
    rw [radius_eq_dist]
    unfold Circle.get_circle
    simp only
    rw [dist_xpts, show a - (a - r) = r by ring, abs_of_pos hr]
  have h := circle_y0_line (Circle.get_circle ⟨a, 0⟩ r) x_axis xaxis_A xaxis_C
    (by rw [xaxis_B]; norm_num) rfl (by rw [hrad]; exact hr)
  rw [hrad] at h
  exact h

theorem casnumAdd_eval (a b : ℝ) :
    casnumAdd ⟨a, 0⟩ ⟨b, 0⟩ = some ⟨a + b, 0⟩ := by
  unfold casnumAdd
  by_cases ha : a = 0
  · subst ha
    rw [if_pos ((xpt_eq_origin 0).mpr rfl)]
    exact congrArg some (Point.ext (by norm_num) rfl)
  · rw [if_neg (fun h => ha ((xpt_eq_origin a).mp h))]
    by_cases hb : b = 0
    · subst hb
      rw [if_pos ((xpt_eq_origin 0).mpr rfl)]
      exact congrArg some (Point.ext (by norm_num) rfl)
    · rw [if_neg (fun h => hb ((xpt_eq_origin b).mp h))]
      by_cases hab : (⟨a, 0⟩ : Point) = ⟨b, 0⟩
      · rw [if_pos hab]
        have hba : a = b := congrArg Point.x hab
        rw [casnumMul2_eval]
        exact congrArg some (Point.ext (by simp only; linarith) rfl)
      · rw [if_neg hab]
        rw [dist_origin_x b]
        have habs : 0 < |b| := abs_pos.mpr hb
        simp only
        rw [get_circle_chord a |b| habs]
        simp only [unpack2]
        rw [optBind_some]
        simp only
        rcases lt_or_gt_of_ne hb with hneg | hpos
        · rw [if_neg (by show ¬ (0:ℝ) < b; linarith)]
          rw [if_neg (by
            show ¬ a + |b| < a - |b|
            intro h
            linarith [habs])]
          exact congrArg some (Point.ext
            (by show a - |b| = a + b; rw [abs_of_neg hneg]; ring) rfl)
        · rw [if_pos (by show (0:ℝ) < b; linarith)]
          rw [if_pos (by
            show a - |b| < a + |b|
            linarith [habs])]
          exact congrArg some (Point.ext
            (by show a + |b| = a + b; rw [abs_of_pos hpos]) rfl)

theorem casnumSub_eval (a b : ℝ) :
    casnumSub ⟨a, 0⟩ ⟨b, 0⟩ = some ⟨a - b, 0⟩ := by
  unfold casnumSub
  by_cases hab : (⟨a, 0⟩ : Point) = ⟨b, 0⟩
  · rw [if_pos hab]
    have hba : a = b := congrArg Point.x hab
    exact congrArg some (Point.ext (by show (0:ℝ) = a - b; rw [hba, sub_self]) rfl)
  · rw [if_neg hab]
    rw [casnumNeg_eval, optBind_some]
    rw [casnumAdd_eval]
    exact congrArg some (Point.ext (by show a + -b = a - b; ring) rfl)

theorem casnumAbs_eval (x : ℝ) :
    casnumAbs ⟨x, 0⟩ = some ⟨|x|, 0⟩ := by
  unfold casnumAbs
  by_cases hx : x < 0
  · rw [if_pos (by simpa using hx)]
    rw [casnumNeg_eval]
    exact congrArg some (Point.ext (by rw [abs_of_neg hx]) rfl)
  · rw [if_neg (by simpa using hx)]
    exact congrArg some (Point.ext
      (by rw [abs_of_nonneg (le_of_not_lt hx)]) rfl)

theorem twoPoint_eval : twoPoint = ⟨2, 0⟩ := by
  unfold twoPoint
  show (casnumAdd ⟨1, 0⟩ ⟨1, 0⟩).getD originP = _
  rw [casnumAdd_eval]
  show (⟨1 + 1, 0⟩ : Point) = ⟨2, 0⟩
  exact Point.ext (by norm_num) rfl

theorem half_x_eval (x : ℝ) :
    half_point_on_x_axis originP ⟨x, 0⟩ = some ⟨x/2, 0⟩ := by
  by_cases hx : x = 0
  · subst hx
    unfold half_point_on_x_axis
    rw [if_pos ((xpt_eq_origin 0).mpr rfl)]
    exact congrArg some (Point.ext (by show (0:ℝ) = 0/2; norm_num) rfl)
  · unfold half_point_on_x_axis
    rw [if_neg (fun h => hx ((xpt_eq_origin x).mp h))]
    unfold get_midpoint
    have hbis : get_perpendicular_bisector ⟨originP, ⟨x, 0⟩⟩ =
        some ⟨⟨(0 + x)/2, 0 + Real.sqrt 3 * |0 - x| / 2⟩,
              ⟨(0 + x)/2, 0 - Real.sqrt 3 * |0 - x| / 2⟩⟩ := by
      show get_perpendicular_bisector ⟨⟨0, 0⟩, ⟨x, 0⟩⟩ = _
      exact bisector_horiz 0 x 0 (fun h => hx h.symm)
    rw [hbis, optBind_some]
    have hE : 0 < Real.sqrt 3 * |0 - x| / 2 := by
      have h1 : 0 < Real.sqrt 3 := Real.sqrt_pos.mpr (by norm_num)
      have h2 : 0 < |0 - x| := abs_pos.mpr (by intro h; apply hx; linarith)
      positivity
    have hlA : (⟨originP, ⟨x, 0⟩⟩ : Line).A = 0 := seg_line_A originP ⟨x, 0⟩ rfl
    have hlB : (⟨originP, ⟨x, 0⟩⟩ : Line).B = x := by
      unfold Line.B originP
      norm_num
    have hlC : (⟨originP, ⟨x, 0⟩⟩ : Line).C = 0 := seg_line_C0 originP x rfl
    have hbA : (⟨⟨(0 + x)/2, 0 + Real.sqrt 3 * |0 - x| / 2⟩,
        ⟨(0 + x)/2, 0 - Real.sqrt 3 * |0 - x| / 2⟩⟩ : Line).A =
        Real.sqrt 3 * |0 - x| := by
      unfold Line.A
      simp only
      ring
    have hbB : (⟨⟨(0 + x)/2, 0 + Real.sqrt 3 * |0 - x| / 2⟩,
        ⟨(0 + x)/2, 0 - Real.sqrt 3 * |0 - x| / 2⟩⟩ : Line).B = 0 := by
      unfold Line.B
      simp only
      ring
    have hbC : (⟨⟨(0 + x)/2, 0 + Real.sqrt 3 * |0 - x| / 2⟩,
        ⟨(0 + x)/2, 0 - Real.sqrt 3 * |0 - x| / 2⟩⟩ : Line).C =
        -(x/2) * (Real.sqrt 3 * |0 - x|) := by
      unfold Line.C
      simp only
      ring
    have hd : (⟨originP, ⟨x, 0⟩⟩ : Line).A *
        (⟨⟨(0 + x)/2, 0 + Real.sqrt 3 * |0 - x| / 2⟩,
         ⟨(0 + x)/2, 0 - Real.sqrt 3 * |0 - x| / 2⟩⟩ : Line).B -
        (⟨originP, ⟨x, 0⟩⟩ : Line).B *
        (⟨⟨(0 + x)/2, 0 + Real.sqrt 3 * |0 - x| / 2⟩,
         ⟨(0 + x)/2, 0 - Real.sqrt 3 * |0 - x| / 2⟩⟩ : Line).A ≠ 0 := by
      rw [hlA, hlB, hbA, hbB]
      simp only [mul_zero, zero_sub, neg_ne_zero]
      refine mul_ne_zero hx (mul_ne_zero (ne_of_gt (Real.sqrt_pos.mpr (by norm_num)))
        (abs_ne_zero.mpr (by intro h; exact hx (by linarith))))
    have h1 : onL ⟨x/2, 0⟩ (⟨originP, ⟨x, 0⟩⟩ : Line) := by
      unfold onL
      rw [hlA, hlB, hlC]
      ring
    have h2 : onL ⟨x/2, 0⟩ (⟨⟨(0 + x)/2, 0 + Real.sqrt 3 * |0 - x| / 2⟩,
        ⟨(0 + x)/2, 0 - Real.sqrt 3 * |0 - x| / 2⟩⟩ : Line) := by
      unfold onL
      rw [hbA, hbB, hbC]
      ring
    unfold Line.intersect
    exact line_inter_unique _ _ hd _ h1 h2

end Cas
